import Mathlib

/-
Verification of the Monkey interpreter (lexer, Pratt parser, tree-walking
evaluator) against its specification.  The Go sources are embedded shallowly:

  * `token`   — the token package (token kinds, keyword table);
  * `Lexer`   — lexer/lexer.go, a cursor over the input bytes; its internal
    scanning loops advance `readPosition` by one on every step and stop as
    soon as the cursor passes the end of the input, so each loop runs at most
    `input.length + 2` iterations; the loops are defined with that bound as an
    explicit structural counter, which makes them total and computable while
    agreeing exactly with the source on every state;
  * `Expr`/`Stmt`/`Block` — the ast package; fields typed `ast.Expression` in
    Go can hold a nil interface, which is embedded as `Option Expr`;
  * the parser — parser/parser.go, embedded as state-passing functions over
    `Parser`; the parser's mutual recursion is not structurally terminating
    (parseLetStatement's skip loop can run forever), so every parse function
    takes a fuel counter, `none` meaning the fuel ran out (divergence);
  * `Object`, `Heap`, the evaluator and the builtins — object/object.go,
    object/environment.go, and the evaluator package.  Go environments are
    mutable and shared by reference, so environments live in an explicit heap
    of frames addressed by `Nat`; Go runtime panics (nil-interface method
    calls, out-of-range indexing, division by zero) are an explicit error
    outcome, kept distinct from running out of fuel.
-/

namespace token

def ILLEGAL : String := "ILLEGAL"
def EOF : String := "EOF"
def IDENT : String := "IDENT"
def INT : String := "INT"
def STRING : String := "STRING"
def ASSIGN : String := "="
def PLUS : String := "+"
def MINUS : String := "-"
def BANG : String := "!"
def ASTERISK : String := "*"
def SLASH : String := "/"
-- The source pairs the name LT with ">" and GT with "<"; both names are only
-- ever used through the constants, so the swap is preserved verbatim.
def LT : String := ">"
def GT : String := "<"
def EQ : String := "=="
def NOT_EQ : String := "!="
def COMMA : String := ","
def SEMICOLON : String := ";"
def COLON : String := ":"
def LPAREN : String := "("
def RPAREN : String := ")"
def LBRACE : String := "\x7b"
def RBRACE : String := "\x7d"
def LBRACKET : String := "["
def RBRACKET : String := "]"
def FUNCTION : String := "FUNCTION"
def LET : String := "LET"
def TRUE : String := "TRUE"
def FALSE : String := "FALSE"
def IF : String := "IF"
def ELSE : String := "ELSE"
def RETURN : String := "RETURN"

end token

/-- A token: a kind (`TokenType` is a string in the source) plus the literal
text it was scanned from. -/
structure Token where
  type : String
  literal : String
deriving Repr, DecidableEq

/-- keywords maps keyword names to their TokenType values. -/
def keywords (s : String) : Option String :=
  if s = "fn" then some token.FUNCTION
  else if s = "let" then some token.LET
  else if s = "true" then some token.TRUE
  else if s = "false" then some token.FALSE
  else if s = "if" then some token.IF
  else if s = "else" then some token.ELSE
  else if s = "return" then some token.RETURN
  else none

/-- LookupIdent returns a TokenType for the name of an identifier. -/
def LookupIdent (ident : String) : String :=
  match keywords ident with
  | some tok => tok
  | none => token.IDENT

/-- The lexer state: the input bytes (ASCII, embedded as `List Char`), the
index of the current char, the index after it, and the char under
examination (`Char.ofNat 0` plays the role of Go's byte 0 past the end). -/
structure Lexer where
  input : List Char
  position : Nat
  readPosition : Nat
  ch : Char
deriving Repr, DecidableEq

def isLetter (ch : Char) : Bool :=
  ('a' ≤ ch && ch ≤ 'z') || ('A' ≤ ch && ch ≤ 'Z') || ch = '_'

def isDigit (ch : Char) : Bool :=
  '0' ≤ ch && ch ≤ '9'

def isWhitespace (ch : Char) : Bool :=
  ch = ' ' || ch = '\t' || ch = '\n' || ch = '\r'

/-- readChar reads the next character; past the end it sets `ch` to NUL. -/
def readChar (l : Lexer) : Lexer :=
  { l with
    ch := if l.readPosition ≥ l.input.length then Char.ofNat 0
          else l.input.getD l.readPosition (Char.ofNat 0)
    position := l.readPosition
    readPosition := l.readPosition + 1 }

def peekChar (l : Lexer) : Char :=
  if l.readPosition ≥ l.input.length then Char.ofNat 0
  else l.input.getD l.readPosition (Char.ofNat 0)

/-- The `for isWhitespace(l.ch)` loop of skipWhitespace; `readChar` advances
`readPosition` every step and yields NUL past the end, so the explicit
counter `input.length + 2` is never exhausted before the loop's own guard
stops it. -/
def skipWhitespaceFuel : Nat → Lexer → Lexer
  | 0, l => l
  | fuel + 1, l => if isWhitespace l.ch then skipWhitespaceFuel fuel (readChar l) else l

def skipWhitespace (l : Lexer) : Lexer :=
  skipWhitespaceFuel (l.input.length + 2) l

/-- The scanning loop of readIdentifier (`for isLetter(l.ch)`), with the same
sufficient counter as `skipWhitespace`. -/
def readIdentifierFuel : Nat → Lexer → Lexer
  | 0, l => l
  | fuel + 1, l => if isLetter l.ch then readIdentifierFuel fuel (readChar l) else l

/-- readIdentifier consumes a run of letters and returns the slice
`input[startPosition:position]`. -/
def readIdentifier (l : Lexer) : String × Lexer :=
  let startPosition := l.position
  let l' := readIdentifierFuel (l.input.length + 2) l
  (String.mk ((l'.input.drop startPosition).take (l'.position - startPosition)), l')

/-- The scanning loop of readNumber (`for isDigit(l.ch)`). -/
def readNumberFuel : Nat → Lexer → Lexer
  | 0, l => l
  | fuel + 1, l => if isDigit l.ch then readNumberFuel fuel (readChar l) else l

/-- readNumber consumes a run of digits and returns the slice read. -/
def readNumber (l : Lexer) : String × Lexer :=
  let startPosition := l.position
  let l' := readNumberFuel (l.input.length + 2) l
  (String.mk ((l'.input.drop startPosition).take (l'.position - startPosition)), l')

/-- The `for` loop of readString: read a char, stop on `"` or NUL. -/
def readStringFuel : Nat → Lexer → Lexer
  | 0, l => l
  | fuel + 1, l =>
    let l' := readChar l
    if l'.ch = '"' || l'.ch = Char.ofNat 0 then l' else readStringFuel fuel l'

/-- readString reads the characters between the quotes (an unterminated
string is accepted silently, ending at NUL). -/
def readString (l : Lexer) : String × Lexer :=
  let position := l.position + 1
  let l' := readStringFuel (l.input.length + 2) l
  (String.mk ((l'.input.drop position).take (l'.position - position)), l')

/-- newToken builds a token from a kind and a single character. -/
def newToken (tokenType : String) (ch : Char) : Token :=
  ⟨tokenType, String.mk [ch]⟩

/-- lexerNew mirrors lexer.New: store the input and read one character. -/
def lexerNew (input : List Char) : Lexer :=
  readChar { input := input, position := 0, readPosition := 0, ch := Char.ofNat 0 }

/-- The switch of lexer.NextToken, applied after skipWhitespace;
ident/number branches return without the final readChar. -/
def nextTokenSwitch (l : Lexer) : Token × Lexer :=
  if l.ch = '=' then
    if peekChar l = '=' then
      let ch := l.ch
      let l1 := readChar l
      (⟨token.EQ, String.mk [ch, l1.ch]⟩, readChar l1)
    else (newToken token.ASSIGN l.ch, readChar l)
  else if l.ch = '+' then (newToken token.PLUS l.ch, readChar l)
  else if l.ch = '-' then (newToken token.MINUS l.ch, readChar l)
  else if l.ch = '!' then
    if peekChar l = '=' then
      let ch := l.ch
      let l1 := readChar l
      (⟨token.NOT_EQ, String.mk [ch, l1.ch]⟩, readChar l1)
    else (newToken token.BANG l.ch, readChar l)
  else if l.ch = '*' then (newToken token.ASTERISK l.ch, readChar l)
  else if l.ch = '/' then (newToken token.SLASH l.ch, readChar l)
  else if l.ch = '<' then (newToken token.LT l.ch, readChar l)
  else if l.ch = '>' then (newToken token.GT l.ch, readChar l)
  else if l.ch = ';' then (newToken token.SEMICOLON l.ch, readChar l)
  else if l.ch = '(' then (newToken token.LPAREN l.ch, readChar l)
  else if l.ch = ')' then (newToken token.RPAREN l.ch, readChar l)
  else if l.ch = ',' then (newToken token.COMMA l.ch, readChar l)
  else if l.ch = '\x7b' then (newToken token.LBRACE l.ch, readChar l)
  else if l.ch = '\x7d' then (newToken token.RBRACE l.ch, readChar l)
  else if l.ch = '"' then
    let (lit, l') := readString l
    (⟨token.STRING, lit⟩, readChar l')
  else if l.ch = Char.ofNat 0 then (⟨token.EOF, ""⟩, readChar l)
  else if isLetter l.ch then
    let (lit, l') := readIdentifier l
    (⟨LookupIdent lit, lit⟩, l')
  else if isDigit l.ch then
    let (lit, l') := readNumber l
    (⟨token.INT, lit⟩, l')
  else (newToken token.ILLEGAL l.ch, readChar l)

/-- NextToken returns the next token in the input: skip whitespace, then
dispatch on the current character. -/
def NextToken (l0 : Lexer) : Token × Lexer :=
  nextTokenSwitch (skipWhitespace l0)

/-- ast.Identifier: an identifier node (token plus name). -/
structure Ident where
  tok : Token
  value : String
deriving Repr

mutual
/-- The expression nodes of the ast package.  Fields that are typed
`ast.Expression` in Go hold a nil interface on parse failure, hence
`Option Expr`. -/
inductive Expr where
  | identE (tok : Token) (value : String)
  | intLit (tok : Token) (value : Int)
  | boolLit (tok : Token) (value : Bool)
  | prefixE (tok : Token) (op : String) (right : Option Expr)
  | infixE (tok : Token) (left : Option Expr) (op : String) (right : Option Expr)
  | ifE (tok : Token) (cond : Option Expr) (consequence : Block) (alternative : Option Block)
  | funcLit (tok : Token) (params : List Ident) (body : Block)
  | callE (tok : Token) (fn : Option Expr) (args : List (Option Expr))
deriving Repr

/-- The statement nodes of the ast package. -/
inductive Stmt where
  | letS (tok : Token) (name : Ident) (value : Option Expr)
  | returnS (tok : Token) (returnValue : Option Expr)
  | exprS (tok : Token) (expression : Option Expr)
deriving Repr

/-- ast.BlockStatement: statements between braces. -/
inductive Block where
  | mk (tok : Token) (stmts : List Stmt)
deriving Repr
end

/-- ast.Program: the root node, a sequence of statements. -/
structure Program where
  statements : List Stmt
deriving Repr

/-- A Go runtime fault during printing or evaluation, kept separate from
running out of fuel: `nilTypeCall` is a method call through a nil interface
or nil pointer, `indexRange` an out-of-range slice index, `divZero` an
integer division by zero. -/
inductive EvalFault where
  | nilTypeCall
  | indexRange
  | divZero
  | fuelOut
deriving Repr

/-- String.Join with ", ", as used by the ast and object printers. -/
def joinComma : List String → String
  | [] => ""
  | [s] => s
  | s :: rest => s ++ ", " ++ joinComma rest

mutual
/-- Expr.String() of the ast package.  PrefixExpression.String and
InfixExpression.String call .String() on their sub-expressions without a nil
check, so a nil sub-expression is a nil-interface method call. -/
def exprString : Expr → Except EvalFault String
  | .identE _ value => .ok value
  | .intLit tok _ => .ok tok.literal
  | .boolLit tok _ => .ok tok.literal
  | .prefixE _ op right => do
    let r ← exprOptString right
    .ok ("(" ++ op ++ r ++ ")")
  | .infixE _ left op right => do
    let l ← exprOptString left
    let r ← exprOptString right
    .ok ("(" ++ l ++ " " ++ op ++ " " ++ r ++ ")")
  | .ifE _ cond consequence alternative => do
    let c ← exprOptString cond
    let cs ← blockString consequence
    match alternative with
    | none => .ok ("if" ++ c ++ " " ++ cs)
    | some alt => do
      let as ← blockString alt
      .ok ("if" ++ c ++ " " ++ cs ++ "else " ++ as)
  | .funcLit tok params body => do
    let bs ← blockString body
    .ok (tok.literal ++ "(" ++ joinComma (params.map (fun p => p.value)) ++ ")" ++ bs)
  | .callE _ fn args => do
    let f ← exprOptString fn
    let a ← exprListString args
    .ok (f ++ "(" ++ joinComma a ++ ")")

/-- `.String()` on a possibly-nil expression: Go panics on nil. -/
def exprOptString : Option Expr → Except EvalFault String
  | none => .error .nilTypeCall
  | some e => exprString e

def exprListString : List (Option Expr) → Except EvalFault (List String)
  | [] => .ok []
  | e :: rest => do
    let s ← exprOptString e
    let ss ← exprListString rest
    .ok (s :: ss)

/-- Stmt.String(): LetStatement and ReturnStatement print "<nil>" for an
absent value; ExpressionStatement likewise. -/
def stmtString : Stmt → Except EvalFault String
  | .letS tok name value => do
    let v ← match value with
            | none => pure "<nil>"
            | some e => exprString e
    .ok (tok.literal ++ " " ++ name.value ++ " = " ++ v ++ ";")
  | .returnS tok returnValue => do
    let v ← match returnValue with
            | none => pure "<nil>"
            | some e => exprString e
    .ok (tok.literal ++ " " ++ v ++ ";")
  | .exprS _ expression =>
    match expression with
    | none => .ok "<nil>"
    | some e => exprString e

def blockString : Block → Except EvalFault String
  | .mk _ stmts => stmtListString stmts

def stmtListString : List Stmt → Except EvalFault String
  | [] => .ok ""
  | s :: rest => do
    let a ← stmtString s
    let b ← stmtListString rest
    .ok (a ++ b)
end

/-- Program.String(): the statements' strings joined. -/
def programString (p : Program) : Except EvalFault String :=
  stmtListString p.statements

/-- The parser state: the lexer, two tokens of lookahead, and the error
list.  The two dispatch tables are process-wide constants here
(`prefixParseFns` / `infixParseFns`), exactly as registered by parser.New. -/
structure Parser where
  l : Lexer
  curToken : Token
  peekToken : Token
  errors : List String
deriving Repr

/-- Parser.nextToken: shift the lookahead and pull one token from the lexer. -/
def pNextToken (p : Parser) : Parser :=
  let (tok, l') := NextToken p.l
  { p with curToken := p.peekToken, peekToken := tok, l := l' }

def curTokenIs (p : Parser) (t : String) : Bool := p.curToken.type = t

def peekTokenIs (p : Parser) (t : String) : Bool := p.peekToken.type = t

/-- peekError appends "expected next token to be <t>, got <peek> instead". -/
def peekError (p : Parser) (t : String) : Parser :=
  { p with errors := p.errors ++
      ["expected next token to be " ++ t ++ ", got " ++ p.peekToken.type ++ " instead"] }

/-- expectPeek: on a match advance and return true, else record the error. -/
def expectPeek (p : Parser) (t : String) : Bool × Parser :=
  if peekTokenIs p t then (true, pNextToken p) else (false, peekError p t)

def noPrefixParseFnError (p : Parser) (t : String) : Parser :=
  { p with errors := p.errors ++ ["no prefix parse function for " ++ t ++ " found"] }

-- Operator precedences (the iota block of parser.go, starting at 1).
def lowestP : Nat := 1
def equalsP : Nat := 2
def lessgreaterP : Nat := 3
def sumP : Nat := 4
def productP : Nat := 5
def prefixP : Nat := 6
def callP : Nat := 7

/-- The `precedences` map from token types to precedences. -/
def precedences (t : String) : Option Nat :=
  if t = token.EQ then some equalsP
  else if t = token.NOT_EQ then some equalsP
  else if t = token.LT then some lessgreaterP
  else if t = token.GT then some lessgreaterP
  else if t = token.PLUS then some sumP
  else if t = token.MINUS then some sumP
  else if t = token.SLASH then some productP
  else if t = token.ASTERISK then some productP
  else none

/-- peekPrecedence: map lookup defaulting to LOWEST. -/
def peekPrecedence (p : Parser) : Nat := (precedences p.peekToken.type).getD lowestP

/-- curPrecedence: map lookup defaulting to LOWEST. -/
def curPrecedence (p : Parser) : Nat := (precedences p.curToken.type).getD lowestP

/-- The prefix parse functions registered by parser.New, by name. -/
inductive PrefixFnId where
  | identFn | intFn | bangFn | minusFn | trueFn | falseFn | ifFn | lparenFn
deriving Repr, DecidableEq

/-- The infix parse functions registered by parser.New (every registration is
parseInfixExpression). -/
inductive InfixFnId where
  | binOpFn
deriving Repr, DecidableEq

/-- The prefixParseFns table exactly as filled in by parser.New: IDENT, INT,
BANG, MINUS, TRUE, FALSE, IF and LPAREN are registered, nothing else. -/
def prefixParseFns (t : String) : Option PrefixFnId :=
  if t = token.IDENT then some .identFn
  else if t = token.INT then some .intFn
  else if t = token.BANG then some .bangFn
  else if t = token.MINUS then some .minusFn
  else if t = token.TRUE then some .trueFn
  else if t = token.FALSE then some .falseFn
  else if t = token.IF then some .ifFn
  else if t = token.LPAREN then some .lparenFn
  else none

/-- The infixParseFns table exactly as filled in by parser.New: PLUS, MINUS,
SLASH, ASTERISK, EQ, NOT_EQ, LT and GT map to parseInfixExpression, nothing
else. -/
def infixParseFns (t : String) : Option InfixFnId :=
  if t = token.PLUS then some .binOpFn
  else if t = token.MINUS then some .binOpFn
  else if t = token.SLASH then some .binOpFn
  else if t = token.ASTERISK then some .binOpFn
  else if t = token.EQ then some .binOpFn
  else if t = token.NOT_EQ then some .binOpFn
  else if t = token.LT then some .binOpFn
  else if t = token.GT then some .binOpFn
  else none

/-- Digit-run to value in the given base; a digit at or above the base is a
parse error (strconv would report ErrSyntax). -/
def digitsVal (base : Nat) : List Char → Nat → Option Nat
  | [], acc => some acc
  | c :: rest, acc =>
    let d := c.toNat - 48
    if d < base then digitsVal base rest (acc * base + d) else none

/-- strconv.ParseInt(lit, 0, 64) on the lexer's digit-run literals: base 0
reads a leading "0" followed by more digits as octal (so "09" fails), and a
value beyond 64-bit signed range fails (ErrRange). -/
def goParseIntLiteral (s : String) : Option Int :=
  match s.data with
  | [] => none
  | '0' :: rest =>
    if rest = [] then some 0
    else (digitsVal 8 rest 0).bind fun v =>
      if v ≤ 2 ^ 63 - 1 then some (Int.ofNat v) else none
  | ds =>
    (digitsVal 10 ds 0).bind fun v =>
      if v ≤ 2 ^ 63 - 1 then some (Int.ofNat v) else none

/-- parseIdentifier constructs the node from the current token. -/
def parseIdentifier (p : Parser) : Option Expr × Parser :=
  (some (.identE p.curToken p.curToken.literal), p)

/-- parseIntegerLiteral: on failure record "could not parse %q as integer"
and return nil. -/
def parseIntegerLiteral (p : Parser) : Option Expr × Parser :=
  match goParseIntLiteral p.curToken.literal with
  | none =>
    (none, { p with errors := p.errors ++
        ["could not parse \"" ++ p.curToken.literal ++ "\" as integer"] })
  | some v => (some (.intLit p.curToken v), p)

/-- parseBoolean: value is whether the current token is TRUE. -/
def parseBoolean (p : Parser) : Option Expr × Parser :=
  (some (.boolLit p.curToken (curTokenIs p token.TRUE)), p)

/-
The parse functions below mirror parser.go one-to-one; each takes a fuel
counter decremented on every call, with `none` meaning the fuel ran out.
This is the divergence marker: a result that is `none` for every fuel is an
infinite loop in the source.
-/

mutual
/-- parseExpression: prefix dispatch (recording "no prefix parse function
for <kind> found" and returning nil when the table misses), then the Pratt
loop. -/
def parseExpression : Nat → Nat → Parser → Option (Option Expr × Parser)
  | 0, _, _ => none
  | fuel + 1, precedence, p =>
    match prefixParseFns p.curToken.type with
    | none => some (none, noPrefixParseFnError p p.curToken.type)
    | some fnId =>
      match runPrefixFn fuel fnId p with
      | none => none
      | some (leftExp, p1) => parseExpressionLoop fuel precedence leftExp p1

/-- The `for !p.peekTokenIs(SEMICOLON) && precedence < p.peekPrecedence()`
loop of parseExpression. -/
def parseExpressionLoop : Nat → Nat → Option Expr → Parser → Option (Option Expr × Parser)
  | 0, _, _, _ => none
  | fuel + 1, precedence, leftExp, p =>
    if !peekTokenIs p token.SEMICOLON && precedence < peekPrecedence p then
      match infixParseFns p.peekToken.type with
      | none => some (leftExp, p)
      | some _ =>
        let p1 := pNextToken p
        match parseInfixExpression fuel leftExp p1 with
        | none => none
        | some (leftExp2, p2) => parseExpressionLoop fuel precedence leftExp2 p2
    else some (leftExp, p)

/-- Dispatch on a registered prefix parse function. -/
def runPrefixFn : Nat → PrefixFnId → Parser → Option (Option Expr × Parser)
  | 0, _, _ => none
  | fuel + 1, fnId, p =>
    match fnId with
    | .identFn => some (parseIdentifier p)
    | .intFn => some (parseIntegerLiteral p)
    | .bangFn => parsePrefixExpression fuel p
    | .minusFn => parsePrefixExpression fuel p
    | .trueFn => some (parseBoolean p)
    | .falseFn => some (parseBoolean p)
    | .ifFn => parseIfExpression fuel p
    | .lparenFn => parseGroupedExpression fuel p

/-- parsePrefixExpression: capture the operator, advance, parse the operand
with PREFIX precedence. -/
def parsePrefixExpression : Nat → Parser → Option (Option Expr × Parser)
  | 0, _ => none
  | fuel + 1, p =>
    let tok := p.curToken
    let op := p.curToken.literal
    let p1 := pNextToken p
    match parseExpression fuel prefixP p1 with
    | none => none
    | some (right, p2) => some (some (.prefixE tok op right), p2)

/-- parseInfixExpression: record the operator, compute its precedence,
advance, parse the right operand with that precedence. -/
def parseInfixExpression : Nat → Option Expr → Parser → Option (Option Expr × Parser)
  | 0, _, _ => none
  | fuel + 1, left, p =>
    let tok := p.curToken
    let op := p.curToken.literal
    let precedence := curPrecedence p
    let p1 := pNextToken p
    match parseExpression fuel precedence p1 with
    | none => none
    | some (right, p2) => some (some (.infixE tok left op right), p2)

/-- parseGroupedExpression: advance past `(`, parse with LOWEST, require a
closing `)` (on failure return nil). -/
def parseGroupedExpression : Nat → Parser → Option (Option Expr × Parser)
  | 0, _ => none
  | fuel + 1, p =>
    let p1 := pNextToken p
    match parseExpression fuel lowestP p1 with
    | none => none
    | some (exp, p2) =>
      match expectPeek p2 token.RPAREN with
      | (false, p3) => some (none, p3)
      | (true, p3) => some (exp, p3)

/-- parseIfExpression, including the optional else branch. -/
def parseIfExpression : Nat → Parser → Option (Option Expr × Parser)
  | 0, _ => none
  | fuel + 1, p =>
    let tok := p.curToken
    match expectPeek p token.LPAREN with
    | (false, p1) => some (none, p1)
    | (true, p1) =>
      let p2 := pNextToken p1
      match parseExpression fuel lowestP p2 with
      | none => none
      | some (cond, p3) =>
        match expectPeek p3 token.RPAREN with
        | (false, p4) => some (none, p4)
        | (true, p4) =>
          match expectPeek p4 token.LBRACE with
          | (false, p5) => some (none, p5)
          | (true, p5) =>
            match parseBlockStatement fuel p5 with
            | none => none
            | some (consequence, p6) =>
              if peekTokenIs p6 token.ELSE then
                let p7 := pNextToken p6
                match expectPeek p7 token.LBRACE with
                | (false, p8) => some (none, p8)
                | (true, p8) =>
                  match parseBlockStatement fuel p8 with
                  | none => none
                  | some (alt, p9) => some (some (.ifE tok cond consequence (some alt)), p9)
              else some (some (.ifE tok cond consequence none), p6)

/-- parseBlockStatement: advance past `{` and collect statements. -/
def parseBlockStatement : Nat → Parser → Option (Block × Parser)
  | 0, _ => none
  | fuel + 1, p =>
    let tok := p.curToken
    let p1 := pNextToken p
    parseBlockLoop fuel tok [] p1

/-- The `for !RBRACE && !EOF` loop of parseBlockStatement. -/
def parseBlockLoop : Nat → Token → List Stmt → Parser → Option (Block × Parser)
  | 0, _, _, _ => none
  | fuel + 1, tok, acc, p =>
    if !curTokenIs p token.RBRACE && !curTokenIs p token.EOF then
      match parseStatement fuel p with
      | none => none
      | some (stmt, p1) =>
        let acc' := match stmt with
                    | some s => acc ++ [s]
                    | none => acc
        parseBlockLoop fuel tok acc' (pNextToken p1)
    else some (.mk tok acc, p)

/-- parseStatement dispatches on the current token type. -/
def parseStatement : Nat → Parser → Option (Option Stmt × Parser)
  | 0, _ => none
  | fuel + 1, p =>
    if curTokenIs p token.LET then parseLetStatement fuel p
    else if curTokenIs p token.RETURN then parseReturnStatement fuel p
    else parseExpressionStatement fuel p

/-- parseLetStatement: expect IDENT then ASSIGN, then (per the TODO left in
the source) skip tokens until a SEMICOLON without parsing the value, and
build a LetStatement whose Value field is still nil. -/
def parseLetStatement : Nat → Parser → Option (Option Stmt × Parser)
  | 0, _ => none
  | fuel + 1, p =>
    let tok := p.curToken
    match expectPeek p token.IDENT with
    | (false, p1) => some (none, p1)
    | (true, p1) =>
      let name : Ident := ⟨p1.curToken, p1.curToken.literal⟩
      match expectPeek p1 token.ASSIGN with
      | (false, p2) => some (none, p2)
      | (true, p2) =>
        match letSkipLoop fuel p2 with
        | none => none
        | some p3 => some (some (.letS tok name none), p3)

/-- parseLetStatement's `for !p.curTokenIs(token.SEMICOLON)` skip loop. -/
def letSkipLoop : Nat → Parser → Option Parser
  | 0, _ => none
  | fuel + 1, p =>
    if !curTokenIs p token.SEMICOLON then letSkipLoop fuel (pNextToken p)
    else some p

/-- parseReturnStatement: advance, then skip to a SEMICOLON (same TODO as
parseLetStatement); the ReturnValue field is left nil. -/
def parseReturnStatement : Nat → Parser → Option (Option Stmt × Parser)
  | 0, _ => none
  | fuel + 1, p =>
    let tok := p.curToken
    let p1 := pNextToken p
    match returnSkipLoop fuel p1 with
    | none => none
    | some p2 => some (some (.returnS tok none), p2)

/-- parseReturnStatement's `for !p.curTokenIs(token.SEMICOLON)` skip loop. -/
def returnSkipLoop : Nat → Parser → Option Parser
  | 0, _ => none
  | fuel + 1, p =>
    if !curTokenIs p token.SEMICOLON then returnSkipLoop fuel (pNextToken p)
    else some p

/-- parseExpressionStatement: parse with LOWEST, optionally consume `;`. -/
def parseExpressionStatement : Nat → Parser → Option (Option Stmt × Parser)
  | 0, _ => none
  | fuel + 1, p =>
    let tok := p.curToken
    match parseExpression fuel lowestP p with
    | none => none
    | some (e, p1) =>
      let p2 := if peekTokenIs p1 token.SEMICOLON then pNextToken p1 else p1
      some (some (.exprS tok e), p2)

/-- The `for p.curToken.Type != token.EOF` loop of ParseProgram. -/
def parseProgramLoop : Nat → List Stmt → Parser → Option (Program × Parser)
  | 0, _, _ => none
  | fuel + 1, acc, p =>
    if p.curToken.type ≠ token.EOF then
      match parseStatement fuel p with
      | none => none
      | some (stmt, p1) =>
        let acc' := match stmt with
                    | some s => acc ++ [s]
                    | none => acc
        parseProgramLoop fuel acc' (pNextToken p1)
    else some (⟨acc⟩, p)
end

/-- ParseProgram: accumulate statements until EOF. -/
def ParseProgram (fuel : Nat) (p : Parser) : Option (Program × Parser) :=
  parseProgramLoop fuel [] p

/-- parser.New: build the parser and read two tokens so curToken and
peekToken are both set. -/
def parserNew (l : Lexer) : Parser :=
  pNextToken (pNextToken { l := l, curToken := ⟨"", ""⟩, peekToken := ⟨"", ""⟩, errors := [] })

/-- Lex and parse an input string with the given fuel. -/
def parseMonkey (input : String) (fuel : Nat) : Option (Program × Parser) :=
  ParseProgram fuel (parserNew (lexerNew input.data))

-- Object type tags (object/object.go).
def RETURN_VALUE_OBJ : String := "RETURN_VALUE"
def ERROR_OBJ : String := "ERROR"
def NULL_OBJ : String := "NULL"
def INTEGER_OBJ : String := "INTEGER"
def BOOLEAN_OBJ : String := "BOOLEAN"
def STRING_OBJ : String := "STRING"
def ARRAY_OBJ : String := "ARRAY"
def FUNCTION_OBJ : String := "FUNCTION"
def BUILTIN_OBJ : String := "BUILTIN"

/-- The host functions wrapped by the `builtins` table, by name. -/
inductive BuiltinId where
  | lenB | firstB | lastB | restB | pushB | putsB
deriving Repr, DecidableEq

/-- The runtime value universe (object/object.go).  Boolean and Null values
carry the allocation identity of the Go heap object they stand for, so that
pointer comparison (`==` on object.Object interface values) and the
process-wide singletons TRUE, FALSE and NULL are expressible: the three
singletons are the allocations 0, 1 and 2 made at package initialisation,
and any other allocation number would denote a distinct instance.  A
Function's captured environment is a heap address. -/
inductive Object where
  | integer (value : Int)
  | boolean (value : Bool) (addr : Nat)
  | null (addr : Nat)
  | returnValue (value : Object)
  | error (message : String)
  | function (params : List Ident) (body : Block) (env : Nat)
  | str (value : String)
  | array (elements : List Object)
  | builtin (fn : BuiltinId)
deriving Repr

/-- The process-wide TRUE singleton (allocation 0). -/
def TRUE : Object := .boolean true 0
/-- The process-wide FALSE singleton (allocation 1). -/
def FALSE : Object := .boolean false 1
/-- The process-wide NULL singleton (allocation 2). -/
def NULL : Object := .null 2

/-- Object.Type(). -/
def Object.typeOf : Object → String
  | .integer _ => INTEGER_OBJ
  | .boolean _ _ => BOOLEAN_OBJ
  | .null _ => NULL_OBJ
  | .returnValue _ => RETURN_VALUE_OBJ
  | .error _ => ERROR_OBJ
  | .function _ _ _ => FUNCTION_OBJ
  | .str _ => STRING_OBJ
  | .array _ => ARRAY_OBJ
  | .builtin _ => BUILTIN_OBJ

/-- Go pointer equality (`==`) between two interface objects, as the
evaluator uses it: for Boolean and Null it compares the allocation
identity; objects of the remaining kinds flowing into the evaluator's
identity comparisons are separate allocations, which compare unequal. -/
def goRefEq : Object → Object → Bool
  | .boolean _ a1, .boolean _ a2 => a1 = a2
  | .null a1, .null a2 => a1 = a2
  | _, _ => false

/-- nativeBoolToBooleanObject: the TRUE or FALSE singleton, never a fresh
allocation. -/
def nativeBoolToBooleanObject (input : Bool) : Object :=
  if input then TRUE else FALSE

/-- isTruthy: identity comparison with the NULL and FALSE singletons;
everything else is truthy. -/
def isTruthy (obj : Object) : Bool :=
  if goRefEq obj NULL then false
  else if goRefEq obj FALSE then false
  else true

/-- isError: obj.Type() == ERROR_OBJ (the caller must ensure obj is not nil,
or the method call panics — see the evaluator's uses). -/
def isError (obj : Object) : Bool := obj.typeOf = ERROR_OBJ

mutual
/-- Object.Inspect(). -/
def inspectObj : Object → Except EvalFault String
  | .integer value => .ok (toString value)
  | .boolean value _ => .ok (if value then "true" else "false")
  | .null _ => .ok "null"
  | .returnValue value => inspectObj value
  | .error message => .ok ("error: " ++ message)
  | .function params body _ =>
    match blockString body with
    | .error f => .error f
    | .ok bs =>
      .ok ("fn" ++ "(" ++ joinComma (params.map (fun p => p.value)) ++ ") \x7b\n" ++ bs ++ "\n\x7d")
  | .str value => .ok value
  | .array elements =>
    match inspectList elements with
    | .error f => .error f
    | .ok ss => .ok ("[" ++ joinComma ss ++ "]")
  | .builtin _ => .ok "builtin function"

def inspectList : List Object → Except EvalFault (List String)
  | [] => .ok []
  | o :: rest =>
    match inspectObj o, inspectList rest with
    | .error f, _ => .error f
    | _, .error f => .error f
    | .ok s, .ok ss => .ok (s :: ss)
end

/-- An environment frame: the local store plus the optional parent address
(object/environment.go, with Go's pointer graph made explicit). -/
structure Frame where
  store : List (String × Object)
  outer : Option Nat
deriving Repr

/-- The heap of environment frames; a frame's address is its index. -/
structure Heap where
  frames : List Frame
deriving Repr

def storeGet : List (String × Object) → String → Option Object
  | [], _ => none
  | (k, v) :: rest, name => if k = name then some v else storeGet rest name

def storeSet : List (String × Object) → String → Object → List (String × Object)
  | [], name, v => [(name, v)]
  | (k, w) :: rest, name, v =>
    if k = name then (k, v) :: rest else (k, w) :: storeSet rest name v

/-- NewEnvironment: allocate an empty frame with no outer. -/
def NewEnvironment (h : Heap) : Nat × Heap :=
  (h.frames.length, ⟨h.frames ++ [⟨[], none⟩]⟩)

/-- NewExtendedEnvironment: allocate an empty frame whose outer is the given
environment. -/
def NewExtendedEnvironment (outer : Nat) (h : Heap) : Nat × Heap :=
  (h.frames.length, ⟨h.frames ++ [⟨[], some outer⟩]⟩)

/-- The recursion of Environment.Get along the outer chain.  Every frame the
evaluator allocates has its outer strictly below it, so a chain is never
longer than the number of frames; the counter `frames.length + 1` is
therefore sufficient on every evaluator-created heap. -/
def envGetFuel : Nat → Heap → Nat → String → Option Object
  | 0, _, _, _ => none
  | fuel + 1, h, addr, name =>
    match h.frames.get? addr with
    | none => none
    | some f =>
      match storeGet f.store name with
      | some obj => some obj
      | none =>
        match f.outer with
        | some o => envGetFuel fuel h o name
        | none => none

/-- Environment.Get: check the local store, else delegate to the outer. -/
def envGet (h : Heap) (addr : Nat) (name : String) : Option Object :=
  envGetFuel (h.frames.length + 1) h addr name

/-- Environment.Set: unconditional write into the local store. -/
def envSet (h : Heap) (addr : Nat) (name : String) (v : Object) : Heap :=
  match h.frames.get? addr with
  | some f => ⟨h.frames.set addr ⟨storeSet f.store name v, f.outer⟩⟩
  | none => h

/-- Two's-complement wrap-around of Go's int64 arithmetic. -/
def wrap64 (n : Int) : Int := (n + 2 ^ 63) % 2 ^ 64 - 2 ^ 63

/-- evalBangOperatorExpression: the switch compares against the TRUE, FALSE
and NULL singletons by identity; anything else maps to FALSE. -/
def evalBangOperatorExpression (right : Object) : Object :=
  if goRefEq right TRUE then FALSE
  else if goRefEq right FALSE then TRUE
  else if goRefEq right NULL then TRUE
  else FALSE

/-- evalMinusPrefixOperatorExpression: error on non-integers, else negate. -/
def evalMinusPrefixOperatorExpression (right : Object) : Object :=
  match right with
  | .integer value => .integer (wrap64 (-value))
  | _ => .error ("unknown operator: -" ++ right.typeOf)

/-- evalPrefixExpression dispatches on the operator literal. -/
def evalPrefixExpression (op : String) (right : Object) : Object :=
  if op = "!" then evalBangOperatorExpression right
  else if op = "-" then evalMinusPrefixOperatorExpression right
  else .error ("unknown operator: " ++ op ++ right.typeOf)

/-- evalIntegerInfixExpression; division is Go's truncated division, with
division by zero a runtime panic. -/
def evalIntegerInfixExpression (op : String) (left right : Object) : Except EvalFault Object :=
  match left, right with
  | .integer leftVal, .integer rightVal =>
    if op = "+" then .ok (.integer (wrap64 (leftVal + rightVal)))
    else if op = "-" then .ok (.integer (wrap64 (leftVal - rightVal)))
    else if op = "*" then .ok (.integer (wrap64 (leftVal * rightVal)))
    else if op = "/" then
      if rightVal = 0 then .error .divZero
      else .ok (.integer (wrap64 (Int.tdiv leftVal rightVal)))
    else if op = ">" then .ok (nativeBoolToBooleanObject (decide (leftVal > rightVal)))
    else if op = "<" then .ok (nativeBoolToBooleanObject (decide (leftVal < rightVal)))
    else if op = "==" then .ok (nativeBoolToBooleanObject (decide (leftVal = rightVal)))
    else if op = "!=" then .ok (nativeBoolToBooleanObject (decide (leftVal ≠ rightVal)))
    else .ok (.error ("unknown operator: " ++ left.typeOf ++ " " ++ op ++ " " ++ right.typeOf))
  | _, _ => .error .nilTypeCall

/-- evalInfixExpression: the switch cases in source order — differing types
give "type mismatch", two integers dispatch to the integer operations,
`==`/`!=` compare identity, anything else is "unknown operator". -/
def evalInfixExpression (op : String) (left right : Object) : Except EvalFault Object :=
  if left.typeOf ≠ right.typeOf then
    .ok (.error ("type mismatch: " ++ left.typeOf ++ " " ++ op ++ " " ++ right.typeOf))
  else if left.typeOf = INTEGER_OBJ && right.typeOf = INTEGER_OBJ then
    evalIntegerInfixExpression op left right
  else if op = "==" then .ok (nativeBoolToBooleanObject (goRefEq left right))
  else if op = "!=" then .ok (nativeBoolToBooleanObject (!goRefEq left right))
  else .ok (.error ("unknown operator: " ++ left.typeOf ++ " " ++ op ++ " " ++ right.typeOf))

/-- evalIdentifier: chain lookup, else "identifier not found" (the builtins
table is not consulted). -/
def evalIdentifier (name : String) (environment : Nat) (h : Heap) : Object :=
  match envGet h environment name with
  | some val => val
  | none => .error ("identifier not found: " ++ name)

/-- The builtins table of the evaluator package, keyed by name. -/
def builtins (name : String) : Option BuiltinId :=
  if name = "len" then some .lenB
  else if name = "first" then some .firstB
  else if name = "last" then some .lastB
  else if name = "rest" then some .restB
  else if name = "push" then some .pushB
  else if name = "puts" then some .putsB
  else none

/-- The host functions wrapped by the builtins table.  `first` indexes
element 0 of its argument without an emptiness check (unlike `last` and
`rest`), so an empty Array or String is an out-of-range panic.  `puts`
prints and returns NULL; the printing side effect is not modelled. -/
def builtinFn : BuiltinId → List Object → Except EvalFault Object
  | .lenB, args =>
    match args with
    | [arg] =>
      match arg with
      | .str value => .ok (.integer (Int.ofNat value.length))
      | .array elements => .ok (.integer (Int.ofNat elements.length))
      | _ => .ok (.error ("argument to `len` not supported, got " ++ arg.typeOf))
    | _ => .ok (.error ("wrong number of arguments. got=" ++ toString args.length ++ ", want=1"))
  | .firstB, args =>
    match args with
    | [arg] =>
      match arg with
      | .str value =>
        match value.data with
        | [] => .error .indexRange
        | c :: _ => .ok (.str (String.mk [c]))
      | .array elements =>
        match elements with
        | [] => .error .indexRange
        | e :: _ => .ok e
      | _ => .ok (.error ("argument to `first` not supported, got " ++ arg.typeOf))
    | _ => .ok (.error ("wrong number of arguments. got=" ++ toString args.length ++ ", want=1"))
  | .lastB, args =>
    match args with
    | [arg] =>
      match arg with
      | .str value =>
        match value.data.getLast? with
        | none => .ok NULL
        | some c => .ok (.str (String.mk [c]))
      | .array elements =>
        match elements.getLast? with
        | none => .ok NULL
        | some e => .ok e
      | _ => .ok (.error ("argument to `last` not supported, got " ++ arg.typeOf))
    | _ => .ok (.error ("wrong number of arguments. got=" ++ toString args.length ++ ", want=1"))
  | .restB, args =>
    match args with
    | [arg] =>
      match arg with
      | .str value =>
        match value.data with
        | [] => .ok NULL
        | _ :: tl => .ok (.str (String.mk tl))
      | .array elements =>
        match elements with
        | [] => .ok NULL
        | _ :: tl => .ok (.array tl)
      | _ => .ok (.error ("argument to `rest` not supported, got " ++ arg.typeOf))
    | _ => .ok (.error ("wrong number of arguments. got=" ++ toString args.length ++ ", want=1"))
  | .pushB, args =>
    if args.length < 2 then
      .ok (.error ("wrong number of arguments in call to push: need push(array, elements...). got="
        ++ toString args.length ++ ", want=>1"))
    else
      match args with
      | .array elements :: rest => .ok (.array (elements ++ rest))
      | _ => .ok NULL
  | .putsB, _ => .ok NULL

/-- unwrapReturnVal: unwrap one level of ReturnValue (a failed type
assertion with the comma-ok form returns the object unchanged). -/
def unwrapReturnVal (obj : Option Object) : Option Object :=
  match obj with
  | some (.returnValue v) => some v
  | _ => obj

/-- The parameter-binding loop of extendedFunctionEnv: env.Set(param.Value,
args[paramID]); indexing args out of range is a runtime panic. -/
def bindParams : List Ident → Nat → List Object → Nat → Heap → Except EvalFault Heap
  | [], _, _, _, h => .ok h
  | param :: rest, paramID, args, envAddr, h =>
    match args.get? paramID with
    | none => .error .indexRange
    | some a => bindParams rest (paramID + 1) args envAddr (envSet h envAddr param.value a)

/-- extendedFunctionEnv: a fresh frame extending the function's captured
environment, seeded with the positional parameter bindings. -/
def extendedFunctionEnv (params : List Ident) (fnEnv : Nat) (args : List Object) (h : Heap) :
    Except EvalFault (Nat × Heap) :=
  let (addr, h1) := NewExtendedEnvironment fnEnv h
  match bindParams params 0 args addr h1 with
  | .error f => .error f
  | .ok h2 => .ok (addr, h2)

/-- An evaluator input: the ast.Node interface (Program, a statement, an
expression, or a block); `Option Node` is a possibly-nil interface value. -/
inductive Node where
  | prog (p : Program)
  | stmt (s : Stmt)
  | expr (e : Expr)
  | block (b : Block)

def optExprNode (o : Option Expr) : Option Node := o.map .expr

/-
The evaluator (Eval and its helpers), with a fuel counter decremented on
every call; `.error .fuelOut` means the fuel ran out, the other `.error`
outcomes are Go runtime panics.  At each site where the source runs
`val := Eval(x); if isError(val) { return val }`, a nil result makes
isError call Type() through a nil interface, which panics — hence the
`.ok (none, _) => .error .nilTypeCall` arms.
-/

mutual
/-- Eval dispatches on the ast variant; a nil node (or, vacuously here, an
unknown one) matches no case and falls through to `return nil`. -/
def Eval : Nat → Option Node → Nat → Heap → Except EvalFault (Option Object × Heap)
  | 0, _, _, _ => .error .fuelOut
  | fuel + 1, node, environment, h =>
    match node with
    | none => .ok (none, h)
    | some (.prog p) => evalProgram fuel none p.statements environment h
    | some (.stmt (.exprS _ expression)) => Eval fuel (optExprNode expression) environment h
    | some (.block b) => evalBlockStatement fuel b environment h
    | some (.stmt (.returnS _ returnValue)) =>
      match Eval fuel (optExprNode returnValue) environment h with
      | .error f => .error f
      | .ok (none, _) => .error .nilTypeCall
      | .ok (some val, h1) =>
        if isError val then .ok (some val, h1)
        else .ok (some (.returnValue val), h1)
    | some (.stmt (.letS _ name value)) =>
      match Eval fuel (optExprNode value) environment h with
      | .error f => .error f
      | .ok (none, _) => .error .nilTypeCall
      | .ok (some val, h1) =>
        if isError val then .ok (some val, h1)
        else .ok (none, envSet h1 environment name.value val)
    | some (.expr (.prefixE _ op right)) =>
      match Eval fuel (optExprNode right) environment h with
      | .error f => .error f
      | .ok (none, _) => .error .nilTypeCall
      | .ok (some right', h1) =>
        if isError right' then .ok (some right', h1)
        else .ok (some (evalPrefixExpression op right'), h1)
    | some (.expr (.infixE _ left op right)) =>
      match Eval fuel (optExprNode left) environment h with
      | .error f => .error f
      | .ok (none, _) => .error .nilTypeCall
      | .ok (some left', h1) =>
        if isError left' then .ok (some left', h1)
        else
          match Eval fuel (optExprNode right) environment h1 with
          | .error f => .error f
          | .ok (none, _) => .error .nilTypeCall
          | .ok (some right', h2) =>
            if isError right' then .ok (some right', h2)
            else
              match evalInfixExpression op left' right' with
              | .error f => .error f
              | .ok res => .ok (some res, h2)
    | some (.expr (.ifE _ cond consequence alternative)) =>
      evalIfExpression fuel cond consequence alternative environment h
    | some (.expr (.intLit _ value)) => .ok (some (.integer value), h)
    | some (.expr (.boolLit _ value)) => .ok (some (nativeBoolToBooleanObject value), h)
    | some (.expr (.identE _ value)) => .ok (some (evalIdentifier value environment h), h)
    | some (.expr (.funcLit _ params body)) =>
      .ok (some (.function params body environment), h)
    | some (.expr (.callE _ fn args)) =>
      match Eval fuel (optExprNode fn) environment h with
      | .error f => .error f
      | .ok (none, _) => .error .nilTypeCall
      | .ok (some function, h1) =>
        if isError function then .ok (some function, h1)
        else
          match evalExpressions fuel args environment h1 with
          | .error f => .error f
          | .ok (args', h2) =>
            match args' with
            | [a] =>
              if isError a then .ok (some a, h2)
              else applyFunction fuel function [a] h2
            | _ => applyFunction fuel function args' h2
termination_by structural fuel => fuel

/-- evalProgram's statement loop, carrying the running `result` variable:
a ReturnValue is unwrapped, an Error returned as is, otherwise the last
statement's value is the result. -/
def evalProgram : Nat → Option Object → List Stmt → Nat → Heap →
    Except EvalFault (Option Object × Heap)
  | 0, _, _, _, _ => .error .fuelOut
  | _ + 1, result, [], _, h => .ok (result, h)
  | fuel + 1, _, statement :: rest, environment, h =>
    match Eval fuel (some (.stmt statement)) environment h with
    | .error f => .error f
    | .ok (result, h1) =>
      match result with
      | some (.returnValue v) => .ok (some v, h1)
      | some (.error m) => .ok (some (.error m), h1)
      | _ => evalProgram fuel result rest environment h1
termination_by structural fuel => fuel

/-- evalBlockStatement evaluates the block's statements. -/
def evalBlockStatement : Nat → Block → Nat → Heap → Except EvalFault (Option Object × Heap)
  | 0, _, _, _ => .error .fuelOut
  | fuel + 1, .mk _ stmts, environment, h => evalBlockLoop fuel none stmts environment h
termination_by structural fuel => fuel

/-- The statement loop of evalBlockStatement: a non-nil result whose type is
RETURN_VALUE or ERROR is returned without unwrapping. -/
def evalBlockLoop : Nat → Option Object → List Stmt → Nat → Heap →
    Except EvalFault (Option Object × Heap)
  | 0, _, _, _, _ => .error .fuelOut
  | _ + 1, result, [], _, h => .ok (result, h)
  | fuel + 1, _, statement :: rest, environment, h =>
    match Eval fuel (some (.stmt statement)) environment h with
    | .error f => .error f
    | .ok (result, h1) =>
      match result with
      | some r =>
        if r.typeOf = RETURN_VALUE_OBJ || r.typeOf = ERROR_OBJ then .ok (some r, h1)
        else evalBlockLoop fuel (some r) rest environment h1
      | none => evalBlockLoop fuel none rest environment h1
termination_by structural fuel => fuel

/-- evalExpressions evaluates the arguments left to right; the first Error
aborts the loop and the whole call returns just that Error (so a later
element of the result being the sole error collapses the list). -/
def evalExpressions : Nat → List (Option Expr) → Nat → Heap →
    Except EvalFault (List Object × Heap)
  | 0, _, _, _ => .error .fuelOut
  | _ + 1, [], _, h => .ok ([], h)
  | fuel + 1, e :: rest, environment, h =>
    match Eval fuel (optExprNode e) environment h with
    | .error f => .error f
    | .ok (none, _) => .error .nilTypeCall
    | .ok (some evaluated, h1) =>
      if isError evaluated then .ok ([evaluated], h1)
      else
        match evalExpressions fuel rest environment h1 with
        | .error f => .error f
        | .ok ([e'], h2) =>
          if isError e' then .ok ([e'], h2) else .ok ([evaluated, e'], h2)
        | .ok (vs, h2) => .ok (evaluated :: vs, h2)
termination_by structural fuel => fuel

/-- evalIfExpression: evaluate the condition, branch on truthiness,
defaulting to the NULL singleton with no alternative. -/
def evalIfExpression : Nat → Option Expr → Block → Option Block → Nat → Heap →
    Except EvalFault (Option Object × Heap)
  | 0, _, _, _, _, _ => .error .fuelOut
  | fuel + 1, cond, consequence, alternative, environment, h =>
    match Eval fuel (optExprNode cond) environment h with
    | .error f => .error f
    | .ok (none, _) => .error .nilTypeCall
    | .ok (some condition, h1) =>
      if isError condition then .ok (some condition, h1)
      else if isTruthy condition then Eval fuel (some (.block consequence)) environment h1
      else
        match alternative with
        | some alt => Eval fuel (some (.block alt)) environment h1
        | none => .ok (some NULL, h1)
termination_by structural fuel => fuel

/-- applyFunction: only Function objects are applied — the type assertion's
comma-ok form sends every other callee (Builtin included) to the
"not a function" error. -/
def applyFunction : Nat → Object → List Object → Heap → Except EvalFault (Option Object × Heap)
  | 0, _, _, _ => .error .fuelOut
  | fuel + 1, fn, args, h =>
    match fn with
    | .function params body fnEnv =>
      match extendedFunctionEnv params fnEnv args h with
      | .error f => .error f
      | .ok (extendedEnv, h1) =>
        match Eval fuel (some (.block body)) extendedEnv h1 with
        | .error f => .error f
        | .ok (evaluated, h2) => .ok (unwrapReturnVal evaluated, h2)
    | _ => .ok (some (.error ("not a function: " ++ fn.typeOf)), h)
termination_by structural fuel => fuel
end

/-- A fresh top-level environment in an empty heap (address 0). -/
def initialHeap : Heap := ⟨[⟨[], none⟩]⟩

/-- Parse an input and evaluate the resulting Program in a fresh
environment; `none` means the parser's fuel ran out. -/
def runMonkey (input : String) (pfuel efuel : Nat) :
    Option (Except EvalFault (Option Object × Heap)) :=
  (parseMonkey input pfuel).map fun pr => Eval efuel (some (.prog pr.1)) 0 initialHeap

/-- A lexer that has consumed its whole input: the cursor is past the end
and the char under examination is NUL. -/
def LexAtEnd (l : Lexer) : Prop :=
  l.input.length ≤ l.readPosition ∧ l.ch = Char.ofNat 0

theorem isWhitespace_nul : isWhitespace (Char.ofNat 0) = false := rfl

theorem skipWhitespaceFuel_nul (f : Nat) (l : Lexer) (h : l.ch = Char.ofNat 0) :
    skipWhitespaceFuel f l = l := by
  cases f with
  | zero => rfl
  | succ f =>
    show (if isWhitespace l.ch then skipWhitespaceFuel f (readChar l) else l) = l
    rw [h, isWhitespace_nul]
    simp

theorem readChar_atEnd (l : Lexer) (h : LexAtEnd l) :
    readChar l = { l with ch := Char.ofNat 0, position := l.readPosition,
                          readPosition := l.readPosition + 1 } := by
  unfold readChar
  rw [if_pos h.1]

theorem readChar_atEnd_atEnd (l : Lexer) (h : LexAtEnd l) : LexAtEnd (readChar l) := by
  rw [readChar_atEnd l h]
  exact ⟨Nat.le_succ_of_le h.1, rfl⟩

theorem nextTokenSwitch_nul (l : Lexer) (h : l.ch = Char.ofNat 0) :
    nextTokenSwitch l = (⟨token.EOF, ""⟩, readChar l) := by
  unfold nextTokenSwitch
  rw [h]
  iterate 15 rw [if_neg (by decide)]
  rw [if_pos rfl]

theorem nextToken_atEnd (l : Lexer) (h : LexAtEnd l) :
    NextToken l = (⟨token.EOF, ""⟩, readChar l) := by
  unfold NextToken
  rw [show skipWhitespace l = l from skipWhitespaceFuel_nul _ l h.2]
  exact nextTokenSwitch_nul l h.2

theorem pNextToken_atEnd (p : Parser) (h : LexAtEnd p.l) :
    pNextToken p = { p with curToken := p.peekToken, peekToken := ⟨token.EOF, ""⟩,
                            l := readChar p.l } := by
  show (let (tok, l') := NextToken p.l
        { p with curToken := p.peekToken, peekToken := tok, l := l' }) = _
  rw [nextToken_atEnd p.l h]

/-- Once a let statement's skip loop faces a token stream holding no further
SEMICOLON (the lexer is exhausted, so the stream is EOF forever), the loop
runs until the fuel is gone, for every fuel: this is the infinite loop in
parseLetStatement. -/
theorem letSkipLoop_diverges (f : Nat) (p : Parser)
    (hc : p.curToken.type ≠ token.SEMICOLON)
    (hp : p.peekToken.type ≠ token.SEMICOLON)
    (hl : LexAtEnd p.l) :
    letSkipLoop f p = none := by
  induction f generalizing p with
  | zero => rfl
  | succ f ih =>
    show (if !curTokenIs p token.SEMICOLON then letSkipLoop f (pNextToken p) else some p) = none
    rw [show curTokenIs p token.SEMICOLON = false by simp [curTokenIs, hc]]
    simp only [Bool.not_false, if_true]
    rw [pNextToken_atEnd p hl]
    exact ih _ hp (by simp [token.EOF, token.SEMICOLON]) (readChar_atEnd_atEnd p.l hl)

theorem parseLetStatement_skip_none (m : Nat) (p p1 p2 : Parser)
    (h1 : expectPeek p token.IDENT = (true, p1))
    (h2 : expectPeek p1 token.ASSIGN = (true, p2))
    (h3 : letSkipLoop m p2 = none) :
    parseLetStatement (m + 1) p = none := by
  simp only [parseLetStatement, h1, h2, h3]

theorem parseStatement_let_none (m : Nat) (p : Parser)
    (hcur : p.curToken.type = token.LET)
    (h : parseLetStatement m p = none) :
    parseStatement (m + 1) p = none := by
  simp [parseStatement, curTokenIs, hcur, h]

theorem parseProgramLoop_stmt_none (m : Nat) (acc : List Stmt) (p : Parser)
    (hne : ¬(p.curToken.type = token.EOF))
    (h : parseStatement m p = none) :
    parseProgramLoop (m + 1) acc p = none := by
  simp [parseProgramLoop, hne, h]

/-- The parser state just after parser.New on the input `let x = 5`. -/
def letInputParser : Parser := parserNew (lexerNew "let x = 5".data)

/-- The parser state parseLetStatement reaches after its two expectPeek
calls on the input `let x = 5` (curToken is the `=`). -/
def letInputP2 : Parser := pNextToken (pNextToken letInputParser)

/-- C1: refuted on the code.  Parsing `let x = 5 * 2;` (a let statement
whose name and `=` are followed by a well-formed expression) produces a
LetStatement whose value field is absent (`none`): parseLetStatement never
calls parseExpression — it skips every token up to the semicolon — so the
parsed expression is not stored. -/
theorem c1_let_value_dropped :
    (parseMonkey "let x = 5 * 2;" 50).map (fun pr => pr.1) =
      some ⟨[Stmt.letS ⟨token.LET, "let"⟩ ⟨⟨token.IDENT, "x"⟩, "x"⟩ none]⟩ := by
  rfl

/-- C2: refuted on the code.  parser.New registers no prefix parse function
for FUNCTION and no infix parse function for LPAREN, and evaluating the
parsed form of `let id = fn(x) { x; }; id(5);` does not produce the Integer
5 — it panics (nil-interface method call) when the first let statement's
absent value reaches isError. -/
theorem c2_function_call_unregistered :
    prefixParseFns token.FUNCTION = none ∧
    infixParseFns token.LPAREN = none ∧
    runMonkey "let id = fn(x) \x7b x; \x7d; id(5);" 99 99 =
      some (.error .nilTypeCall) := by
  exact ⟨rfl, rfl, rfl⟩

/-- C3: refuted on the code.  On the input `let x = 5` — a let statement
whose value is not followed by a semicolon — ParseProgram does not
terminate: for every fuel the embedding returns the divergence marker,
because parseLetStatement's skip loop keeps asking the exhausted lexer for
a SEMICOLON it will never produce. -/
theorem c3_parse_diverges_without_semicolon :
    ∀ fuel, parseMonkey "let x = 5" fuel = none := by
  intro fuel
  rcases fuel with _ | (_ | (_ | (_ | n)))
  · rfl
  · rfl
  · rfl
  · rfl
  · have hskip : letSkipLoop (n + 1) letInputP2 = none :=
      letSkipLoop_diverges (n + 1) letInputP2 (by decide) (by decide) ⟨by decide, by decide⟩
    have hlet : parseLetStatement (n + 2) letInputParser = none :=
      parseLetStatement_skip_none (n + 1) letInputParser (pNextToken letInputParser)
        letInputP2 rfl rfl hskip
    have hstmt : parseStatement (n + 3) letInputParser = none :=
      parseStatement_let_none (n + 2) letInputParser rfl hlet
    exact parseProgramLoop_stmt_none (n + 3) [] letInputParser (by decide) hstmt

/-- C4: refuted on the code.  Eval is not total over parser output: the
program ParseProgram returns for `let x = 5;` is a LetStatement with no
value expression, evaluating that absent expression yields nil, and
isError applied to nil calls Type() through a nil interface — a panic,
not an Object. -/
theorem c4_eval_panics_on_parsed_let :
    runMonkey "let x = 5;" 50 50 = some (.error .nilTypeCall) := by
  rfl

/-- C5: refuted on the code.  The builtin `first`, called with exactly one
argument that is an empty Array or an empty String, does not return NULL:
it indexes element 0 without an emptiness check and panics with an
out-of-range index (its siblings `last` and `rest` do check). -/
theorem c5_first_empty_panics :
    builtinFn .firstB [Object.array []] = .error .indexRange ∧
    builtinFn .firstB [Object.str ""] = .error .indexRange ∧
    builtins "first" = some .firstB := by
  exact ⟨rfl, rfl, rfl⟩

/-- C6: refuted on the code.  applyFunction applies only Function objects;
a Builtin callee falls into the type assertion's failure branch and is
answered with the Error "not a function: BUILTIN" for every argument list
and heap — the wrapped host function is never invoked (invoking it, e.g.
len on "abc", would return Integer 3). -/
theorem c6_builtin_not_invoked :
    (∀ (fuel : Nat) (fn : BuiltinId) (args : List Object) (h : Heap),
      applyFunction (fuel + 1) (.builtin fn) args h =
        .ok (some (.error "not a function: BUILTIN"), h)) ∧
    builtinFn .lenB [Object.str "abc"] = .ok (.integer 3) := by
  exact ⟨fun fuel fn args h => rfl, rfl⟩

/-- C7: confirmed.  The Pratt loop parses `a + b / c` so that the
higher-precedence division binds tighter, printing "(a + (b / c))", and
`-a * b` so that the prefix minus binds tighter than the product, printing
"((-a) * b)". -/
theorem c7_pratt_precedence :
    (parseMonkey "a + b / c" 50).map (fun pr => programString pr.1) =
      some (.ok "(a + (b / c))") ∧
    (parseMonkey "-a * b" 50).map (fun pr => programString pr.1) =
      some (.ok "((-a) * b)") := by
  exact ⟨rfl, rfl⟩

/-- C8: confirmed.  Whenever the two evaluated operands of an infix
expression have different type tags, evalInfixExpression returns the Error
"type mismatch: <lt> <op> <rt>"; in particular the program `5 + true;`
evaluates to an Error object whose Inspect() is
"error: type mismatch: INTEGER + BOOLEAN". -/
theorem c8_type_mismatch :
    (∀ (op : String) (l r : Object), l.typeOf ≠ r.typeOf →
      evalInfixExpression op l r =
        .ok (.error ("type mismatch: " ++ l.typeOf ++ " " ++ op ++ " " ++ r.typeOf))) ∧
    runMonkey "5 + true;" 50 50 =
      some (.ok (some (.error "type mismatch: INTEGER + BOOLEAN"), initialHeap)) ∧
    inspectObj (.error "type mismatch: INTEGER + BOOLEAN") =
      .ok "error: type mismatch: INTEGER + BOOLEAN" := by
  refine ⟨fun op l r hne => ?_, rfl, rfl⟩
  unfold evalInfixExpression
  rw [if_pos hne]

/-- Witness for C8 at a concrete input: Integer 5 and the TRUE singleton
have different type tags, and the mismatch error is produced. -/
theorem c8_type_mismatch_witness :
    evalInfixExpression "+" (Object.integer 5) TRUE =
      .ok (.error ("type mismatch: " ++ (Object.integer 5).typeOf ++ " " ++ "+"
        ++ " " ++ TRUE.typeOf)) :=
  c8_type_mismatch.1 "+" (Object.integer 5) TRUE (by decide)

/-- C9: confirmed.  Error short-circuit: in a prefix expression an Error
from the operand is returned unchanged; in an infix expression an Error
from the left operand is returned unchanged with the right operand never
evaluated (the result and final heap do not depend on it), and an Error
from the right operand after a successful left is returned unchanged with
the operator never applied; in a call an
Error from the callee is returned unchanged with no argument evaluated, and
an Error in the evaluated argument list is returned unchanged; and
evalExpressions stops at the first Error left-to-right — an Error in the
head aborts before any later argument, and an Error later on collapses the
list to just that Error. -/
theorem c9_error_short_circuit :
    (∀ (fuel : Nat) (tok : Token) (op : String) (right : Option Expr) (env : Nat)
        (h : Heap) (e : Object) (h1 : Heap),
      Eval fuel (optExprNode right) env h = .ok (some e, h1) → isError e = true →
      Eval (fuel + 1) (some (.expr (.prefixE tok op right))) env h = .ok (some e, h1)) ∧
    (∀ (fuel : Nat) (tok : Token) (left : Option Expr) (op : String)
        (right : Option Expr) (env : Nat) (h : Heap) (e : Object) (h1 : Heap),
      Eval fuel (optExprNode left) env h = .ok (some e, h1) → isError e = true →
      Eval (fuel + 1) (some (.expr (.infixE tok left op right))) env h = .ok (some e, h1)) ∧
    (∀ (fuel : Nat) (tok : Token) (left : Option Expr) (op : String)
        (right : Option Expr) (env : Nat) (h : Heap) (lval : Object) (h1 : Heap)
        (e : Object) (h2 : Heap),
      Eval fuel (optExprNode left) env h = .ok (some lval, h1) → isError lval = false →
      Eval fuel (optExprNode right) env h1 = .ok (some e, h2) → isError e = true →
      Eval (fuel + 1) (some (.expr (.infixE tok left op right))) env h = .ok (some e, h2)) ∧
    (∀ (fuel : Nat) (tok : Token) (fn : Option Expr) (args : List (Option Expr))
        (env : Nat) (h : Heap) (e : Object) (h1 : Heap),
      Eval fuel (optExprNode fn) env h = .ok (some e, h1) → isError e = true →
      Eval (fuel + 1) (some (.expr (.callE tok fn args))) env h = .ok (some e, h1)) ∧
    (∀ (fuel : Nat) (tok : Token) (fn : Option Expr) (args : List (Option Expr))
        (env : Nat) (h : Heap) (fobj : Object) (h1 : Heap) (e : Object) (h2 : Heap),
      Eval fuel (optExprNode fn) env h = .ok (some fobj, h1) → isError fobj = false →
      evalExpressions fuel args env h1 = .ok ([e], h2) → isError e = true →
      Eval (fuel + 1) (some (.expr (.callE tok fn args))) env h = .ok (some e, h2)) ∧
    (∀ (fuel : Nat) (x : Option Expr) (rest : List (Option Expr)) (env : Nat)
        (h : Heap) (e : Object) (h1 : Heap),
      Eval fuel (optExprNode x) env h = .ok (some e, h1) → isError e = true →
      evalExpressions (fuel + 1) (x :: rest) env h = .ok ([e], h1)) ∧
    (∀ (fuel : Nat) (x : Option Expr) (rest : List (Option Expr)) (env : Nat)
        (h : Heap) (v : Object) (h1 : Heap) (e : Object) (h2 : Heap),
      Eval fuel (optExprNode x) env h = .ok (some v, h1) → isError v = false →
      evalExpressions fuel rest env h1 = .ok ([e], h2) → isError e = true →
      evalExpressions (fuel + 1) (x :: rest) env h = .ok ([e], h2)) := by
  refine ⟨?_, ?_, ?_, ?_, ?_, ?_, ?_⟩
  · intro fuel tok op right env h e h1 heq herr
    simp only [Eval, heq, herr, if_true]
  · intro fuel tok left op right env h e h1 heq herr
    simp only [Eval, heq, herr, if_true]
  · intro fuel tok left op right env h lval h1 e h2 heql herrl heqr herr
    simp only [Eval, heql, herrl, heqr, herr, Bool.false_eq_true, if_false, if_true]
  · intro fuel tok fn args env h e h1 heq herr
    simp only [Eval, heq, herr, if_true]
  · intro fuel tok fn args env h fobj h1 e h2 heqf herrf heqa herr
    simp only [Eval, heqf, herrf, heqa, herr, Bool.false_eq_true, if_false, if_true]
  · intro fuel x rest env h e h1 heq herr
    simp only [evalExpressions, heq, herr, if_true]
  · intro fuel x rest env h v h1 e h2 heq herrv heqr herr
    simp only [evalExpressions, heq, herrv, heqr, herr, Bool.false_eq_true, if_false, if_true]

/-- An identifier that evaluates to an Error in the fresh environment. -/
def zzIdent : Expr := .identE ⟨token.IDENT, "zz"⟩ "zz"

/-- An integer literal that evaluates without error. -/
def sevenLit : Expr := .intLit ⟨token.INT, "7"⟩ 7

/-- The Error object `zzIdent` evaluates to. -/
def zzErr : Object := .error "identifier not found: zz"

/-- Witness for C9 at concrete inputs: the unbound identifier zz evaluates
to an Error, and that Error propagates unchanged out of a prefix operand,
an infix left operand, an infix right operand after a successful left, a
call callee, a call argument, and both positions of an argument list. -/
theorem c9_error_short_circuit_witness :
    Eval 2 (some (.expr (.prefixE ⟨token.MINUS, "-"⟩ "-" (some zzIdent)))) 0 initialHeap =
      .ok (some zzErr, initialHeap) ∧
    Eval 2 (some (.expr (.infixE ⟨token.PLUS, "+"⟩ (some zzIdent) "+" none))) 0 initialHeap =
      .ok (some zzErr, initialHeap) ∧
    Eval 2 (some (.expr (.infixE ⟨token.PLUS, "+"⟩ (some sevenLit) "+" (some zzIdent)))) 0
        initialHeap = .ok (some zzErr, initialHeap) ∧
    Eval 2 (some (.expr (.callE ⟨token.LPAREN, "("⟩ (some zzIdent) []))) 0 initialHeap =
      .ok (some zzErr, initialHeap) ∧
    Eval 3 (some (.expr (.callE ⟨token.LPAREN, "("⟩ (some sevenLit) [some zzIdent]))) 0
        initialHeap = .ok (some zzErr, initialHeap) ∧
    evalExpressions 2 [some zzIdent, some sevenLit] 0 initialHeap =
      .ok ([zzErr], initialHeap) ∧
    evalExpressions 3 [some sevenLit, some zzIdent] 0 initialHeap =
      .ok ([zzErr], initialHeap) :=
  ⟨c9_error_short_circuit.1 1 ⟨token.MINUS, "-"⟩ "-" (some zzIdent) 0 initialHeap
      zzErr initialHeap rfl rfl,
   c9_error_short_circuit.2.1 1 ⟨token.PLUS, "+"⟩ (some zzIdent) "+" none 0 initialHeap
      zzErr initialHeap rfl rfl,
   c9_error_short_circuit.2.2.1 1 ⟨token.PLUS, "+"⟩ (some sevenLit) "+" (some zzIdent)
      0 initialHeap (.integer 7) initialHeap zzErr initialHeap rfl rfl rfl rfl,
   c9_error_short_circuit.2.2.2.1 1 ⟨token.LPAREN, "("⟩ (some zzIdent) [] 0 initialHeap
      zzErr initialHeap rfl rfl,
   c9_error_short_circuit.2.2.2.2.1 2 ⟨token.LPAREN, "("⟩ (some sevenLit) [some zzIdent]
      0 initialHeap (.integer 7) initialHeap zzErr initialHeap rfl rfl rfl rfl,
   c9_error_short_circuit.2.2.2.2.2.1 1 (some zzIdent) [some sevenLit] 0 initialHeap
      zzErr initialHeap rfl rfl,
   c9_error_short_circuit.2.2.2.2.2.2 2 (some sevenLit) [some zzIdent] 0 initialHeap
      (.integer 7) initialHeap zzErr initialHeap rfl rfl rfl rfl⟩

/-- The singleton invariant on one object: every Boolean it contains is one
of the two singleton allocations (0 for true, 1 for false) and every Null
is the singleton allocation 2 — no second instance exists. -/
inductive WfObj : Object → Prop
  | integer (v : Int) : WfObj (.integer v)
  | boolean (b : Bool) : WfObj (.boolean b (if b then 0 else 1))
  | null : WfObj (.null 2)
  | returnValue {v : Object} : WfObj v → WfObj (.returnValue v)
  | error (m : String) : WfObj (.error m)
  | function (ps : List Ident) (body : Block) (env : Nat) : WfObj (.function ps body env)
  | str (s : String) : WfObj (.str s)
  | array {els : List Object} : (∀ o ∈ els, WfObj o) → WfObj (.array els)
  | builtin (b : BuiltinId) : WfObj (.builtin b)

/-- The singleton invariant on an evaluation result (a possibly-nil object). -/
def WfRes (r : Option Object) : Prop := ∀ o, r = some o → WfObj o

/-- The singleton invariant on every object stored in the heap. -/
def WfHeap (h : Heap) : Prop := ∀ f ∈ h.frames, ∀ p ∈ f.store, WfObj p.2

theorem wfObj_TRUE : WfObj TRUE := WfObj.boolean true

theorem wfObj_FALSE : WfObj FALSE := WfObj.boolean false

theorem wfObj_NULL : WfObj NULL := WfObj.null

theorem wfObj_native (b : Bool) : WfObj (nativeBoolToBooleanObject b) := by
  cases b
  · exact wfObj_FALSE
  · exact wfObj_TRUE

theorem wfRes_none : WfRes none := fun o h => by cases h

theorem wfRes_some {o : Object} (hw : WfObj o) : WfRes (some o) := by
  intro o' h
  cases h
  exact hw

theorem storeGet_wf {store : List (String × Object)} {n : String} {o : Object}
    (hs : ∀ p ∈ store, WfObj p.2) (h : storeGet store n = some o) : WfObj o := by
  induction store with
  | nil => cases h
  | cons kv rest ih =>
    unfold storeGet at h
    split at h
    · cases h
      exact hs kv (List.mem_cons_self kv rest)
    · exact ih (fun p hp => hs p (List.mem_cons_of_mem kv hp)) h

theorem storeSet_wf {store : List (String × Object)} {n : String} {v : Object}
    (hs : ∀ p ∈ store, WfObj p.2) (hv : WfObj v) :
    ∀ p ∈ storeSet store n v, WfObj p.2 := by
  induction store with
  | nil =>
    intro p hp
    rcases List.mem_singleton.mp hp with rfl
    exact hv
  | cons kv rest ih =>
    obtain ⟨k, w⟩ := kv
    intro p hp
    unfold storeSet at hp
    split at hp
    · rcases List.mem_cons.mp hp with rfl | hmem
      · exact hv
      · exact hs p (List.mem_cons_of_mem (k, w) hmem)
    · rcases List.mem_cons.mp hp with rfl | hmem
      · exact hs _ (List.mem_cons_self (k, w) rest)
      · exact ih (fun q hq => hs q (List.mem_cons_of_mem (k, w) hq)) p hmem

theorem envGetFuel_wf : ∀ (fuel : Nat) (h : Heap) (a : Nat) (n : String) (o : Object),
    WfHeap h → envGetFuel fuel h a n = some o → WfObj o := by
  intro fuel
  induction fuel with
  | zero => intro h a n o _ hg; cases hg
  | succ fuel ih =>
    intro h a n o hw hg
    unfold envGetFuel at hg
    split at hg
    · cases hg
    · rename_i f hget
      split at hg
      · cases hg
        exact storeGet_wf (hw f (List.get?_mem hget)) (by assumption)
      · split at hg
        · exact ih h _ n o hw hg
        · cases hg

theorem envGet_wf {h : Heap} {a : Nat} {n : String} {o : Object}
    (hw : WfHeap h) (hg : envGet h a n = some o) : WfObj o :=
  envGetFuel_wf _ h a n o hw hg

theorem envSet_wf {h : Heap} {a : Nat} {n : String} {v : Object}
    (hw : WfHeap h) (hv : WfObj v) : WfHeap (envSet h a n v) := by
  unfold envSet
  split
  · rename_i f hget
    intro fr hmem p hp
    rcases List.mem_or_eq_of_mem_set hmem with hold | rfl
    · exact hw fr hold p hp
    · exact storeSet_wf (hw f (List.get?_mem hget)) hv p hp
  · exact hw

theorem newExtended_wf {h : Heap} {outer : Nat} (hw : WfHeap h) :
    WfHeap (NewExtendedEnvironment outer h).2 := by
  intro fr hmem p hp
  rcases List.mem_append.mp hmem with hold | hnew
  · exact hw fr hold p hp
  · rcases List.mem_singleton.mp hnew with rfl
    cases hp

theorem wfHeap_initial : WfHeap initialHeap := by
  intro f hf p hp
  rcases List.mem_singleton.mp hf with rfl
  cases hp

theorem bindParams_wf : ∀ (ps : List Ident) (i : Nat) (args : List Object) (a : Nat)
    (h h' : Heap), WfHeap h → (∀ x ∈ args, WfObj x) →
    bindParams ps i args a h = .ok h' → WfHeap h' := by
  intro ps
  induction ps with
  | nil => intro i args a h h' hw _ hb; cases hb; exact hw
  | cons p rest ih =>
    intro i args a h h' hw hargs hb
    unfold bindParams at hb
    split at hb
    · cases hb
    · rename_i x hget
      exact ih _ args a _ h' (envSet_wf hw (hargs x (List.get?_mem hget))) hargs hb

theorem extendedFunctionEnv_wf {ps : List Ident} {fe : Nat} {args : List Object}
    {h : Heap} {ad : Nat} {h' : Heap}
    (hw : WfHeap h) (hargs : ∀ x ∈ args, WfObj x)
    (he : extendedFunctionEnv ps fe args h = .ok (ad, h')) : WfHeap h' := by
  unfold extendedFunctionEnv at he
  split at he
  rename_i ad1 h1 heq1
  have hwf1 : WfHeap h1 := by
    have h2 := @newExtended_wf h fe hw
    rw [heq1] at h2
    exact h2
  split at he
  · cases he
  · rename_i h2 hb
    cases he
    exact bindParams_wf ps 0 args _ h1 _ hwf1 hargs hb

theorem wf_evalBang (r : Object) : WfObj (evalBangOperatorExpression r) := by
  unfold evalBangOperatorExpression
  split
  · exact wfObj_FALSE
  · split
    · exact wfObj_TRUE
    · split
      · exact wfObj_TRUE
      · exact wfObj_FALSE

theorem wf_evalMinus (r : Object) : WfObj (evalMinusPrefixOperatorExpression r) := by
  unfold evalMinusPrefixOperatorExpression
  split
  · exact WfObj.integer _
  · exact WfObj.error _

theorem wf_evalPrefix (op : String) (r : Object) : WfObj (evalPrefixExpression op r) := by
  unfold evalPrefixExpression
  split
  · exact wf_evalBang r
  · split
    · exact wf_evalMinus r
    · exact WfObj.error _

theorem wf_evalIntegerInfix {op : String} {l r o : Object}
    (h : evalIntegerInfixExpression op l r = .ok o) : WfObj o := by
  unfold evalIntegerInfixExpression at h
  split at h
  · split at h
    · cases h; exact WfObj.integer _
    · split at h
      · cases h; exact WfObj.integer _
      · split at h
        · cases h; exact WfObj.integer _
        · split at h
          · split at h
            · cases h
            · cases h; exact WfObj.integer _
          · split at h
            · cases h; exact wfObj_native _
            · split at h
              · cases h; exact wfObj_native _
              · split at h
                · cases h; exact wfObj_native _
                · split at h
                  · cases h; exact wfObj_native _
                  · cases h; exact WfObj.error _
  · cases h

theorem wf_evalInfix {op : String} {l r o : Object}
    (h : evalInfixExpression op l r = .ok o) : WfObj o := by
  unfold evalInfixExpression at h
  split at h
  · cases h; exact WfObj.error _
  · split at h
    · exact wf_evalIntegerInfix h
    · split at h
      · cases h; exact wfObj_native _
      · split at h
        · cases h; exact wfObj_native _
        · cases h; exact WfObj.error _

theorem wf_evalIdentifier {h : Heap} (n : String) (env : Nat) (hw : WfHeap h) :
    WfObj (evalIdentifier n env h) := by
  unfold evalIdentifier
  split
  · exact envGet_wf hw (by assumption)
  · exact WfObj.error _

theorem wf_unwrap {r : Option Object} (hr : WfRes r) : WfRes (unwrapReturnVal r) := by
  intro o ho
  rcases r with _ | obj
  · exact hr o ho
  · rcases obj with v | ⟨b, a⟩ | a | rv | m | ⟨ps, bd, e⟩ | s | els | bi
    all_goals first
      | exact hr o ho
      | (cases ho
         have h2 := hr _ rfl
         cases h2
         assumption)

/-- Induction hypothesis shape for Eval: results and heaps stay wf. -/
def EvalWfP (fuel : Nat) : Prop :=
  ∀ node env h r h', WfHeap h → Eval fuel node env h = .ok (r, h') → WfRes r ∧ WfHeap h'

/-- Induction hypothesis shape for evalExpressions. -/
def ExprsWfP (fuel : Nat) : Prop :=
  ∀ es env h vs h', WfHeap h → evalExpressions fuel es env h = .ok (vs, h') →
    (∀ v ∈ vs, WfObj v) ∧ WfHeap h'

/-- Induction hypothesis shape for evalProgram. -/
def ProgWfP (fuel : Nat) : Prop :=
  ∀ acc stmts env h r h', WfHeap h → WfRes acc →
    evalProgram fuel acc stmts env h = .ok (r, h') → WfRes r ∧ WfHeap h'

/-- Induction hypothesis shape for evalBlockLoop. -/
def BlockLoopWfP (fuel : Nat) : Prop :=
  ∀ acc stmts env h r h', WfHeap h → WfRes acc →
    evalBlockLoop fuel acc stmts env h = .ok (r, h') → WfRes r ∧ WfHeap h'

/-- Induction hypothesis shape for evalBlockStatement. -/
def BlockWfP (fuel : Nat) : Prop :=
  ∀ b env h r h', WfHeap h → evalBlockStatement fuel b env h = .ok (r, h') →
    WfRes r ∧ WfHeap h'

/-- Induction hypothesis shape for evalIfExpression. -/
def IfWfP (fuel : Nat) : Prop :=
  ∀ c cons alt env h r h', WfHeap h →
    evalIfExpression fuel c cons alt env h = .ok (r, h') → WfRes r ∧ WfHeap h'

/-- Induction hypothesis shape for applyFunction. -/
def ApplyWfP (fuel : Nat) : Prop :=
  ∀ fn args h r h', WfHeap h → (∀ a ∈ args, WfObj a) →
    applyFunction fuel fn args h = .ok (r, h') → WfRes r ∧ WfHeap h'

theorem wfStep_return (fuel : Nat) (hE : EvalWfP fuel) (tok : Token) (rv : Option Expr)
    (env : Nat) (h : Heap) (r : Option Object) (h' : Heap) (hw : WfHeap h)
    (heq : Eval (fuel + 1) (some (.stmt (.returnS tok rv))) env h = .ok (r, h')) :
    WfRes r ∧ WfHeap h' := by
  simp only [Eval] at heq
  rcases hs : Eval fuel (optExprNode rv) env h with f | ⟨val, h1⟩
  · rw [hs] at heq
    simp at heq
  · rw [hs] at heq
    rcases val with _ | val
    · simp at heq
    · obtain ⟨hrv, hh1⟩ := hE _ _ _ _ _ hw hs
      have hval : WfObj val := hrv val rfl
      rcases hie : isError val with _ | _
      · simp [hie] at heq
        obtain ⟨rfl, rfl⟩ := heq
        exact ⟨wfRes_some (WfObj.returnValue hval), hh1⟩
      · simp [hie] at heq
        obtain ⟨rfl, rfl⟩ := heq
        exact ⟨wfRes_some hval, hh1⟩

theorem wfStep_let (fuel : Nat) (hE : EvalWfP fuel) (tok : Token) (name : Ident)
    (value : Option Expr) (env : Nat) (h : Heap) (r : Option Object) (h' : Heap)
    (hw : WfHeap h)
    (heq : Eval (fuel + 1) (some (.stmt (.letS tok name value))) env h = .ok (r, h')) :
    WfRes r ∧ WfHeap h' := by
  simp only [Eval] at heq
  rcases hs : Eval fuel (optExprNode value) env h with f | ⟨val, h1⟩
  · rw [hs] at heq
    simp at heq
  · rw [hs] at heq
    rcases val with _ | val
    · simp at heq
    · obtain ⟨hrv, hh1⟩ := hE _ _ _ _ _ hw hs
      have hval : WfObj val := hrv val rfl
      rcases hie : isError val with _ | _
      · simp [hie] at heq
        obtain ⟨rfl, rfl⟩ := heq
        exact ⟨wfRes_none, envSet_wf hh1 hval⟩
      · simp [hie] at heq
        obtain ⟨rfl, rfl⟩ := heq
        exact ⟨wfRes_some hval, hh1⟩

theorem wfStep_prefix (fuel : Nat) (hE : EvalWfP fuel) (tok : Token) (op : String)
    (right : Option Expr) (env : Nat) (h : Heap) (r : Option Object) (h' : Heap)
    (hw : WfHeap h)
    (heq : Eval (fuel + 1) (some (.expr (.prefixE tok op right))) env h = .ok (r, h')) :
    WfRes r ∧ WfHeap h' := by
  simp only [Eval] at heq
  rcases hs : Eval fuel (optExprNode right) env h with f | ⟨val, h1⟩
  · rw [hs] at heq
    simp at heq
  · rw [hs] at heq
    rcases val with _ | val
    · simp at heq
    · obtain ⟨hrv, hh1⟩ := hE _ _ _ _ _ hw hs
      have hval : WfObj val := hrv val rfl
      rcases hie : isError val with _ | _
      · simp [hie] at heq
        obtain ⟨rfl, rfl⟩ := heq
        exact ⟨wfRes_some (wf_evalPrefix op val), hh1⟩
      · simp [hie] at heq
        obtain ⟨rfl, rfl⟩ := heq
        exact ⟨wfRes_some hval, hh1⟩


theorem wfStep_infix (fuel : Nat) (hE : EvalWfP fuel) (tok : Token)
    (left : Option Expr) (op : String) (right : Option Expr) (env : Nat) (h : Heap)
    (r : Option Object) (h' : Heap) (hw : WfHeap h)
    (heq : Eval (fuel + 1) (some (.expr (.infixE tok left op right))) env h = .ok (r, h')) :
    WfRes r ∧ WfHeap h' := by
  simp only [Eval] at heq
  rcases hs : Eval fuel (optExprNode left) env h with f | ⟨lval, h1⟩
  · rw [hs] at heq
    simp at heq
  · rw [hs] at heq
    rcases lval with _ | lval
    · simp at heq
    · obtain ⟨hrl, hh1⟩ := hE _ _ _ _ _ hw hs
      have hlv : WfObj lval := hrl lval rfl
      rcases hie : isError lval with _ | _
      · simp only [hie] at heq
        simp at heq
        rcases hs2 : Eval fuel (optExprNode right) env h1 with f | ⟨rval, h2⟩
        · rw [hs2] at heq
          simp at heq
        · rw [hs2] at heq
          rcases rval with _ | rval
          · simp at heq
          · obtain ⟨hrr, hh2⟩ := hE _ _ _ _ _ hh1 hs2
            have hrv : WfObj rval := hrr rval rfl
            rcases hie2 : isError rval with _ | _
            · simp only [hie2] at heq
              simp at heq
              rcases hi : evalInfixExpression op lval rval with f | res
              · rw [hi] at heq
                simp at heq
              · rw [hi] at heq
                simp at heq
                obtain ⟨rfl, rfl⟩ := heq
                exact ⟨wfRes_some (wf_evalInfix hi), hh2⟩
            · simp [hie2] at heq
              obtain ⟨rfl, rfl⟩ := heq
              exact ⟨wfRes_some hrv, hh2⟩
      · simp [hie] at heq
        obtain ⟨rfl, rfl⟩ := heq
        exact ⟨wfRes_some hlv, hh1⟩

theorem wfStep_call (fuel : Nat) (hE : EvalWfP fuel) (hX : ExprsWfP fuel)
    (hA : ApplyWfP fuel) (tok : Token) (fn : Option Expr) (args : List (Option Expr))
    (env : Nat) (h : Heap) (r : Option Object) (h' : Heap) (hw : WfHeap h)
    (heq : Eval (fuel + 1) (some (.expr (.callE tok fn args))) env h = .ok (r, h')) :
    WfRes r ∧ WfHeap h' := by
  simp only [Eval] at heq
  rcases hs : Eval fuel (optExprNode fn) env h with f | ⟨fval, h1⟩
  · rw [hs] at heq
    simp at heq
  · rw [hs] at heq
    rcases fval with _ | fval
    · simp at heq
    · obtain ⟨hrf, hh1⟩ := hE _ _ _ _ _ hw hs
      have hfv : WfObj fval := hrf fval rfl
      rcases hie : isError fval with _ | _
      · simp only [hie] at heq
        simp at heq
        rcases hx : evalExpressions fuel args env h1 with f | ⟨avals, h2⟩
        · rw [hx] at heq
          simp at heq
        · rw [hx] at heq
          obtain ⟨havals, hh2⟩ := hX _ _ _ _ _ hh1 hx
          rcases avals with _ | ⟨a, rest⟩
          · simp at heq
            exact hA _ _ _ _ _ hh2 (by intro x hx'; cases hx') heq
          · rcases rest with _ | ⟨b, rest2⟩
            · rcases hie2 : isError a with _ | _
              · simp [hie2] at heq
                exact hA _ _ _ _ _ hh2 havals heq
              · simp [hie2] at heq
                obtain ⟨rfl, rfl⟩ := heq
                exact ⟨wfRes_some (havals a (List.mem_singleton.mpr rfl)), hh2⟩
            · simp at heq
              exact hA _ _ _ _ _ hh2 havals heq
      · simp [hie] at heq
        obtain ⟨rfl, rfl⟩ := heq
        exact ⟨wfRes_some hfv, hh1⟩

theorem wfStep_progLoop (fuel : Nat) (hE : EvalWfP fuel) (hP : ProgWfP fuel)
    (acc : Option Object) (stmts : List Stmt) (env : Nat) (h : Heap)
    (r : Option Object) (h' : Heap) (hw : WfHeap h) (hacc : WfRes acc)
    (heq : evalProgram (fuel + 1) acc stmts env h = .ok (r, h')) :
    WfRes r ∧ WfHeap h' := by
  rcases stmts with _ | ⟨statement, rest⟩
  · simp only [evalProgram] at heq
    simp at heq
    obtain ⟨rfl, rfl⟩ := heq
    exact ⟨hacc, hw⟩
  · simp only [evalProgram] at heq
    rcases hs : Eval fuel (some (.stmt statement)) env h with f | ⟨result, h1⟩
    · rw [hs] at heq
      simp at heq
    · rw [hs] at heq
      obtain ⟨hres, hh1⟩ := hE _ _ _ _ _ hw hs
      rcases result with _ | obj
      · exact hP _ _ _ _ _ _ hh1 wfRes_none heq
      · have hobj : WfObj obj := hres obj rfl
        rcases obj with v | ⟨b, a⟩ | a | rv | m | ⟨ps, bd, e⟩ | s | els | bi
        all_goals first
          | (exact hP _ _ _ _ _ _ hh1 (wfRes_some hobj) heq)
          | skip
        · -- returnValue: unwrapped into the result
          simp at heq
          obtain ⟨rfl, rfl⟩ := heq
          cases hobj
          exact ⟨wfRes_some (by assumption), hh1⟩
        · -- error: returned as is
          simp at heq
          obtain ⟨rfl, rfl⟩ := heq
          exact ⟨wfRes_some hobj, hh1⟩

theorem wfStep_blockLoop (fuel : Nat) (hE : EvalWfP fuel) (hBL : BlockLoopWfP fuel)
    (acc : Option Object) (stmts : List Stmt) (env : Nat) (h : Heap)
    (r : Option Object) (h' : Heap) (hw : WfHeap h) (hacc : WfRes acc)
    (heq : evalBlockLoop (fuel + 1) acc stmts env h = .ok (r, h')) :
    WfRes r ∧ WfHeap h' := by
  rcases stmts with _ | ⟨statement, rest⟩
  · simp only [evalBlockLoop] at heq
    simp at heq
    obtain ⟨rfl, rfl⟩ := heq
    exact ⟨hacc, hw⟩
  · simp only [evalBlockLoop] at heq
    rcases hs : Eval fuel (some (.stmt statement)) env h with f | ⟨result, h1⟩
    · rw [hs] at heq
      simp at heq
    · rw [hs] at heq
      obtain ⟨hres, hh1⟩ := hE _ _ _ _ _ hw hs
      rcases result with _ | obj
      · exact hBL _ _ _ _ _ _ hh1 wfRes_none heq
      · have hobj : WfObj obj := hres obj rfl
        rcases hty : (obj.typeOf = RETURN_VALUE_OBJ || obj.typeOf = ERROR_OBJ) with _ | _
        · simp [hty] at heq
          exact hBL _ _ _ _ _ _ hh1 (wfRes_some hobj) heq
        · simp [hty] at heq
          obtain ⟨rfl, rfl⟩ := heq
          exact ⟨wfRes_some hobj, hh1⟩

theorem wfStep_exprs (fuel : Nat) (hE : EvalWfP fuel) (hX : ExprsWfP fuel)
    (es : List (Option Expr)) (env : Nat) (h : Heap) (vs : List Object) (h' : Heap)
    (hw : WfHeap h) (heq : evalExpressions (fuel + 1) es env h = .ok (vs, h')) :
    (∀ v ∈ vs, WfObj v) ∧ WfHeap h' := by
  rcases es with _ | ⟨e, rest⟩
  · simp only [evalExpressions] at heq
    simp at heq
    obtain ⟨rfl, rfl⟩ := heq
    refine ⟨?_, hw⟩
    intro v hv
    cases hv
  · simp only [evalExpressions] at heq
    rcases hs : Eval fuel (optExprNode e) env h with f | ⟨val, h1⟩
    · rw [hs] at heq
      simp at heq
    · rw [hs] at heq
      rcases val with _ | evaluated
      · simp at heq
      · obtain ⟨hrv, hh1⟩ := hE _ _ _ _ _ hw hs
        have hev : WfObj evaluated := hrv evaluated rfl
        rcases hie : isError evaluated with _ | _
        · simp only [hie] at heq
          simp at heq
          rcases hr : evalExpressions fuel rest env h1 with f | ⟨vs', h2⟩
          · rw [hr] at heq
            simp at heq
          · rw [hr] at heq
            obtain ⟨hvs', hh2⟩ := hX _ _ _ _ _ hh1 hr
            rcases vs' with _ | ⟨x, xs⟩
            · simp at heq
              obtain ⟨rfl, rfl⟩ := heq
              refine ⟨?_, hh2⟩
              intro v hv
              rcases List.mem_singleton.mp hv with rfl
              exact hev
            · rcases xs with _ | ⟨y, ys⟩
              · rcases hie2 : isError x with _ | _
                · simp [hie2] at heq
                  obtain ⟨rfl, rfl⟩ := heq
                  refine ⟨?_, hh2⟩
                  intro v hv
                  rcases List.mem_cons.mp hv with rfl | hv2
                  · exact hev
                  · exact hvs' v hv2
                · simp [hie2] at heq
                  obtain ⟨rfl, rfl⟩ := heq
                  refine ⟨?_, hh2⟩
                  intro v hv
                  rcases List.mem_singleton.mp hv with rfl
                  exact hvs' v (List.mem_singleton.mpr rfl)
              · simp at heq
                obtain ⟨rfl, rfl⟩ := heq
                refine ⟨?_, hh2⟩
                intro v hv
                rcases List.mem_cons.mp hv with rfl | hv2
                · exact hev
                · exact hvs' v hv2
        · simp [hie] at heq
          obtain ⟨rfl, rfl⟩ := heq
          refine ⟨?_, hh1⟩
          intro v hv
          rcases List.mem_singleton.mp hv with rfl
          exact hev

theorem wfStep_if (fuel : Nat) (hE : EvalWfP fuel) (c : Option Expr) (cons : Block)
    (alt : Option Block) (env : Nat) (h : Heap) (r : Option Object) (h' : Heap)
    (hw : WfHeap h)
    (heq : evalIfExpression (fuel + 1) c cons alt env h = .ok (r, h')) :
    WfRes r ∧ WfHeap h' := by
  simp only [evalIfExpression] at heq
  rcases hs : Eval fuel (optExprNode c) env h with f | ⟨val, h1⟩
  · rw [hs] at heq
    simp at heq
  · rw [hs] at heq
    rcases val with _ | condition
    · simp at heq
    · obtain ⟨hrv, hh1⟩ := hE _ _ _ _ _ hw hs
      have hcv : WfObj condition := hrv condition rfl
      rcases hie : isError condition with _ | _
      · rcases hit : isTruthy condition with _ | _
        · rcases alt with _ | alt
          · simp [hie, hit] at heq
            obtain ⟨rfl, rfl⟩ := heq
            exact ⟨wfRes_some wfObj_NULL, hh1⟩
          · simp [hie, hit] at heq
            exact hE _ _ _ _ _ hh1 heq
        · simp [hie, hit] at heq
          exact hE _ _ _ _ _ hh1 heq
      · simp [hie] at heq
        obtain ⟨rfl, rfl⟩ := heq
        exact ⟨wfRes_some hcv, hh1⟩

theorem wfStep_apply (fuel : Nat) (hE : EvalWfP fuel) (fn : Object)
    (args : List Object) (h : Heap) (r : Option Object) (h' : Heap)
    (hw : WfHeap h) (hargs : ∀ a ∈ args, WfObj a)
    (heq : applyFunction (fuel + 1) fn args h = .ok (r, h')) :
    WfRes r ∧ WfHeap h' := by
  rcases fn with v | ⟨b, a⟩ | a | rv | m | ⟨ps, bd, fe⟩ | s | els | bi
  case function =>
    simp only [applyFunction] at heq
    rcases he : extendedFunctionEnv ps fe args h with f | ⟨ext, h1⟩
    · rw [he] at heq
      simp at heq
    · rw [he] at heq
      simp at heq
      have hh1 : WfHeap h1 := extendedFunctionEnv_wf hw hargs he
      rcases hb : Eval fuel (some (.block bd)) ext h1 with f | ⟨evaluated, h2⟩
      · rw [hb] at heq
        simp at heq
      · rw [hb] at heq
        obtain ⟨hev, hh2⟩ := hE _ _ _ _ _ hh1 hb
        simp at heq
        obtain ⟨rfl, rfl⟩ := heq
        exact ⟨wf_unwrap hev, hh2⟩
  all_goals
    simp only [applyFunction] at heq
    simp at heq
    obtain ⟨rfl, rfl⟩ := heq
    exact ⟨wfRes_some (WfObj.error _), hw⟩

/-- Preservation of the singleton invariant by the whole evaluator, by
induction on the fuel: from a heap satisfying the invariant, every
evaluator function returns results and heaps satisfying it. -/
theorem evalWf : ∀ fuel : Nat,
    EvalWfP fuel ∧ ProgWfP fuel ∧ BlockWfP fuel ∧ BlockLoopWfP fuel ∧
    ExprsWfP fuel ∧ IfWfP fuel ∧ ApplyWfP fuel := by
  intro fuel
  induction fuel with
  | zero =>
    refine ⟨fun _ _ _ _ _ _ heq => Except.noConfusion heq,
            fun _ _ _ _ _ _ _ _ heq => Except.noConfusion heq,
            fun _ _ _ _ _ _ heq => Except.noConfusion heq,
            fun _ _ _ _ _ _ _ _ heq => Except.noConfusion heq,
            fun _ _ _ _ _ _ heq => Except.noConfusion heq,
            fun _ _ _ _ _ _ _ _ heq => Except.noConfusion heq,
            fun _ _ _ _ _ _ _ heq => Except.noConfusion heq⟩
  | succ fuel ih =>
    obtain ⟨ihE, ihP, ihB, ihBL, ihX, ihIf, ihA⟩ := ih
    refine ⟨?_, ?_, ?_, ?_, ?_, ?_, ?_⟩
    · intro node env h r h' hw heq
      rcases node with _ | nd
      · simp only [Eval] at heq
        simp at heq
        obtain ⟨rfl, rfl⟩ := heq
        exact ⟨wfRes_none, hw⟩
      · rcases nd with p | s | e | b
        · simp only [Eval] at heq
          exact ihP none p.statements env h r h' hw wfRes_none heq
        · rcases s with ⟨tok, name, value⟩ | ⟨tok, rv⟩ | ⟨tok, ex⟩
          · exact wfStep_let fuel ihE tok name value env h r h' hw heq
          · exact wfStep_return fuel ihE tok rv env h r h' hw heq
          · simp only [Eval] at heq
            exact ihE _ _ _ _ _ hw heq
        · rcases e with ⟨tok, value⟩ | ⟨tok, v⟩ | ⟨tok, v⟩ | ⟨tok, op, right⟩ |
            ⟨tok, left, op, right⟩ | ⟨tok, c, cons, alt⟩ | ⟨tok, ps, body⟩ | ⟨tok, fn, args⟩
          · simp only [Eval] at heq
            simp at heq
            obtain ⟨rfl, rfl⟩ := heq
            exact ⟨wfRes_some (wf_evalIdentifier value env hw), hw⟩
          · simp only [Eval] at heq
            simp at heq
            obtain ⟨rfl, rfl⟩ := heq
            exact ⟨wfRes_some (WfObj.integer v), hw⟩
          · simp only [Eval] at heq
            simp at heq
            obtain ⟨rfl, rfl⟩ := heq
            exact ⟨wfRes_some (wfObj_native v), hw⟩
          · exact wfStep_prefix fuel ihE tok op right env h r h' hw heq
          · exact wfStep_infix fuel ihE tok left op right env h r h' hw heq
          · simp only [Eval] at heq
            exact ihIf _ _ _ _ _ _ _ hw heq
          · simp only [Eval] at heq
            simp at heq
            obtain ⟨rfl, rfl⟩ := heq
            exact ⟨wfRes_some (WfObj.function ps body env), hw⟩
          · exact wfStep_call fuel ihE ihX ihA tok fn args env h r h' hw heq
        · simp only [Eval] at heq
          exact ihB b env h r h' hw heq
    · intro acc stmts env h r h' hw hacc heq
      exact wfStep_progLoop fuel ihE ihP acc stmts env h r h' hw hacc heq
    · intro b env h r h' hw heq
      rcases b with ⟨tok, stmts⟩
      simp only [evalBlockStatement] at heq
      exact ihBL none stmts env h r h' hw wfRes_none heq
    · intro acc stmts env h r h' hw hacc heq
      exact wfStep_blockLoop fuel ihE ihBL acc stmts env h r h' hw hacc heq
    · intro es env h vs h' hw heq
      exact wfStep_exprs fuel ihE ihX es env h vs h' hw heq
    · intro c cons alt env h r h' hw heq
      exact wfStep_if fuel ihE c cons alt env h r h' hw heq
    · intro fn args h r h' hw hargs heq
      exact wfStep_apply fuel ihE fn args h r h' hw hargs heq

/-- C10: confirmed.  Singleton identity is an invariant of evaluation:
starting from a heap satisfying the singleton invariant, every evaluation
that yields a boolean returns the process-wide TRUE or FALSE singleton
(nativeBoolToBooleanObject never allocates), every evaluation that yields
null returns the NULL singleton, and the heap keeps the invariant — no
second instance of TRUE, FALSE or NULL is ever constructed.  Consequently
the identity comparison the evaluator uses for `==`/`!=` agrees with value
equality on booleans and null. -/
theorem c10_singleton_identity :
    (∀ (fuel : Nat) (node : Option Node) (env : Nat) (h : Heap) (r : Option Object)
        (h' : Heap), WfHeap h → Eval fuel node env h = .ok (r, h') →
      (∀ b a, r = some (.boolean b a) → r = some (nativeBoolToBooleanObject b)) ∧
      (∀ a, r = some (.null a) → r = some NULL) ∧ WfHeap h') ∧
    (∀ (b1 : Bool) (a1 : Nat) (b2 : Bool) (a2 : Nat),
      WfObj (.boolean b1 a1) → WfObj (.boolean b2 a2) →
      goRefEq (.boolean b1 a1) (.boolean b2 a2) = (b1 == b2)) ∧
    (∀ (a1 a2 : Nat), WfObj (.null a1) → WfObj (.null a2) →
      goRefEq (.null a1) (.null a2) = true) ∧
    (∀ (b1 : Bool) (a1 : Nat) (b2 : Bool) (a2 : Nat),
      WfObj (.boolean b1 a1) → WfObj (.boolean b2 a2) →
      evalInfixExpression "==" (.boolean b1 a1) (.boolean b2 a2) =
        .ok (nativeBoolToBooleanObject (b1 == b2)) ∧
      evalInfixExpression "!=" (.boolean b1 a1) (.boolean b2 a2) =
        .ok (nativeBoolToBooleanObject (!(b1 == b2)))) := by
  refine ⟨?_, ?_, ?_, ?_⟩
  · intro fuel node env h r h' hw heq
    obtain ⟨hE, _⟩ := evalWf fuel
    obtain ⟨hr, hh'⟩ := hE node env h r h' hw heq
    refine ⟨?_, ?_, hh'⟩
    · intro b a hba
      have hwb := hr _ hba
      cases hwb
      rw [hba]
      cases b <;> rfl
    · intro a hna
      have hwn := hr _ hna
      cases hwn
      rw [hna]
      rfl
  · intro b1 a1 b2 a2 h1 h2
    cases h1
    cases h2
    cases b1 <;> cases b2 <;> rfl
  · intro a1 a2 h1 h2
    cases h1
    cases h2
    rfl
  · intro b1 a1 b2 a2 h1 h2
    cases h1
    cases h2
    cases b1 <;> cases b2 <;> exact ⟨rfl, rfl⟩

/-- A one-statement program whose value is the boolean true: `1 < 2;`. -/
def ltOneTwoProg : Program :=
  ⟨[.exprS ⟨token.INT, "1"⟩ (some (.infixE ⟨token.LT, "<"⟩
      (some (.intLit ⟨token.INT, "1"⟩ 1)) "<" (some (.intLit ⟨token.INT, "2"⟩ 2))))]⟩

/-- Witness for C10 at concrete inputs: evaluating `1 < 2;` in a fresh
environment yields exactly the TRUE singleton, and the identity-based
comparisons agree with value equality on the singletons. -/
theorem c10_singleton_identity_witness :
    (some TRUE : Option Object) = some (nativeBoolToBooleanObject true) ∧
    goRefEq TRUE FALSE = (true == false) ∧
    goRefEq NULL NULL = true ∧
    evalInfixExpression "==" TRUE FALSE = .ok (nativeBoolToBooleanObject (true == false)) ∧
    evalInfixExpression "!=" TRUE FALSE = .ok (nativeBoolToBooleanObject (!(true == false))) :=
  ⟨(c10_singleton_identity.1 10 (some (.prog ltOneTwoProg)) 0 initialHeap (some TRUE)
      initialHeap wfHeap_initial rfl).1 true 0 rfl,
   c10_singleton_identity.2.1 true 0 false 1 (WfObj.boolean true) (WfObj.boolean false),
   c10_singleton_identity.2.2.1 2 2 WfObj.null WfObj.null,
   (c10_singleton_identity.2.2.2 true 0 false 1 (WfObj.boolean true) (WfObj.boolean false)).1,
   (c10_singleton_identity.2.2.2 true 0 false 1 (WfObj.boolean true) (WfObj.boolean false)).2⟩
